import Mathlib

/-!
Verification of the `netjs` network data model (`src/js/netdata.js`).

The development shallowly embeds the data-model functions of the source:

* JavaScript floating point numbers are modelled as `Option ℚ`, with `none`
  playing the role of `NaN` (and of `undefined` where a missing array slot is
  read; `isNaN(undefined)` is `true` in JavaScript, and both propagate the
  same way through the arithmetic and comparisons used by the source).
* Comparisons involving `NaN` are false, as in JavaScript; `d3.min`/`d3.max`
  skip `NaN`/`undefined` entries, as in d3 v3.
* Mutable object graphs (nodes pointing at neighbour nodes, dendrogram tree
  nodes pointing at parents/children) are replaced by integer indices into
  the owning network / an arena, following the arena design the data admits.
* Fallible code (JavaScript `throw`, including the implicit `TypeError`
  raised when a property of `undefined` is written) returns `Except`.
* The unbounded `while` loop of `flattenDendrogramTree` is given explicit
  fuel; running out of fuel is reported as the distinguished error
  `NetErr.fuelOut`, never confused with an error of the source.

Presentation-only attributes (thumbnail URLs, d3 colour/width scales from
`genColourScales`, the `source`/`target` aliases d3 layouts need) are not
modelled: they are written, never read, by the data-model code under study.
Each node's `edges` array always mirrors its `neighbours` array entry by
entry (both are pushed together), so only the neighbour lists are carried
explicitly; the incident edges are recoverable from the edge list.
-/

namespace NetJS

/-- Value of a JavaScript number cell: `none` models `NaN` (and `undefined`
read out of an array), `some q` a real number. -/
abbrev Val := Option ℚ

/-- Matrix as stored by the source: a list of rows of values. -/
abbrev Matrix := List (List Val)

/-- Read `matrix[i][j]`; out-of-range reads give `undefined`, which behaves
like `NaN` in every use the source makes of it. -/
def entry (m : Matrix) (i j : Nat) : Val :=
  (m.getD i []).getD j none

/-- JavaScript `<` on possibly-NaN values: any comparison with `NaN` is false. -/
def ltV (a b : Val) : Bool :=
  match a, b with
  | some x, some y => decide (x < y)
  | _, _ => false

/-- JavaScript `*` on possibly-NaN values. -/
def mulV (a b : Val) : Val :=
  match a, b with
  | some x, some y => some (x * y)
  | _, _ => none

/-- JavaScript `Math.abs`, propagating `NaN`. -/
def absV (a : Val) : Val :=
  a.map (fun x => |x|)

/-- Untyped JavaScript value as stored in the threshold parameter lists:
the source keeps numbers there, but `extractSubNetwork` passes the label
strings through the same slot (see below), so both shapes must flow. -/
inductive JsVal where
  | num (q : ℚ)
  | str (s : String)
deriving DecidableEq, Repr

/-- Modelled from JavaScript `ToNumber` on strings, for the plain decimal
numeral forms: surrounding whitespace is ignored, the empty string is 0, an
optional sign followed by digits and an optional digit-only fractional part
is the evident rational.  Exponent, hexadecimal and `Infinity` forms are
not modelled and map to NaN, like every non-numeric label string. -/
def jsStringToNum (s : String) : Val :=
  let t := s.trim
  if t = "" then some 0
  else
    match t.toInt? with
    | some n => some (n : ℚ)
    | none =>
      match t.splitOn "." with
      | [a, b] =>
        if b ≠ "" ∧ b.all (fun c => c.isDigit) then
          match b.toNat? with
          | none => none
          | some f =>
            let fv : ℚ := (f : ℚ) / (10 : ℚ) ^ b.length
            if a = "" ∨ a = "+" then some fv
            else if a = "-" then some (-fv)
            else
              match a.toInt? with
              | some n => some (if a.startsWith "-" then (n : ℚ) - fv else (n : ℚ) + fv)
              | none => none
        else none
      | _ => none

/-- JavaScript `ToNumber` coercion of a (possibly missing) value, as the
`*` in the default threshold function applies it. -/
def jsNum : Option JsVal → Val
  | some (.num q) => some q
  | some (.str s) => jsStringToNum s
  | none => none

/-- d3 v3 `d3.max` over an array of numbers: skips `NaN`/`undefined`
entries, returns `undefined` on an array with no comparable entry. -/
def d3max (l : List Val) : Val :=
  l.foldl
    (fun acc v =>
      match acc, v with
      | none, some x => some x
      | some a, some b => if b > a then some b else some a
      | a, none => a)
    none

/-- d3 v3 `d3.min`, mirror image of `d3max`. -/
def d3min (l : List Val) : Val :=
  l.foldl
    (fun acc v =>
      match acc, v with
      | none, some x => some x
      | some a, some b => if b < a then some b else some a
      | a, none => a)
    none

/-- JavaScript `Array.prototype.indexOf`: first index of `x`, `-1` if absent. -/
def jsIndexOf {α} [DecidableEq α] (l : List α) (x : α) : Int :=
  if x ∈ l then (l.indexOf x : Int) else -1

/-- Index actually addressed by `splice(i, 1)`: negative indices count from
the end (clamped at 0), indices past the end delete nothing. -/
def spliceIdx (len : Nat) (i : Int) : Nat :=
  if i < 0 then ((len : Int) + i).toNat else i.toNat

/-- JavaScript `l.splice(i, 1)` (the removal effect): deletes one element at
`i` with JavaScript index conventions; deleting past the end is a no-op. -/
def jsRemoveAt {α} (l : List α) (i : Int) : List α :=
  l.eraseIdx (spliceIdx l.length i)

/-- Accumulate the distinct elements of a list keeping first occurrences, as
the `getClusters` loop of `flattenDendrogramTree` does. -/
def uniqFirst {α} [DecidableEq α] (l : List α) : List α :=
  l.foldl (fun acc x => if x ∈ acc then acc else acc ++ [x]) []

/-- Number.MAX_VALUE, the sentinel the statistics scan starts from. -/
def maxNumberValue : ℚ := 2 ^ 1024 - 2 ^ 971

/-- Errors of the embedded code.  The source has no error classes: it throws
strings for its explicit range checks (`matrixIndexError`,
`thresholdIndexError`, …) and crashes with an implicit `TypeError` when it
writes a property of `undefined` (`typeError`).  `linkageError` and
`clusterError` are the names the specification's taxonomy uses; no code path
of the source ever raises them, and they are present only so that statements
about the specification's wording can be expressed.  `fuelOut` reports fuel
exhaustion of the embedding's bounded loops and corresponds to no source
behaviour. -/
inductive NetErr where
  | matrixIndexError
  | thresholdIndexError
  | nodeDataIndexError
  | typeError
  | linkageError
  | clusterError
  | fuelOut
deriving DecidableEq, Repr

/-- Edge of the network: endpoint node indices (always `i < j` as created by
the scan), and one weight per matrix. -/
structure Edge where
  i : Nat
  j : Nat
  weights : List Val
deriving DecidableEq, Repr

/-- Weight vector attached to edge `(i, j)`:
`network.matrices.map(function(mat) {return mat[i][j];})`. -/
def mkWeights (matrices : List Matrix) (i j : Nat) : List Val :=
  matrices.map (fun m => entry m i j)

/-- Edge list built by the double loop of `thresholdNetwork`: for every pair
`i < j < n`, skip if `thr[i][j]` is NaN, otherwise create the edge carrying
one weight per matrix. -/
def buildEdges (matrices : List Matrix) (thr : Matrix) (n : Nat) : List Edge :=
  (List.range n).flatMap (fun i =>
    (List.range' (i + 1) (n - (i + 1))).filterMap (fun j =>
      if (entry thr i j).isNone then none
      else some { i := i, j := j, weights := mkWeights matrices i j }))

/-- Append the new edge to both endpoints' neighbour lists, in the order the
source pushes (`nodes[i].neighbours.push(nodes[j])` then the converse). -/
def addEdgeRefs (ns : List (List Nat)) (e : Edge) : List (List Nat) :=
  let ns1 := ns.set e.i ((ns.getD e.i []) ++ [e.j])
  ns1.set e.j ((ns1.getD e.j []) ++ [e.i])

/-- Neighbour lists of all `n` nodes after pushing every edge of `edges`. -/
def nbrsOf (edges : List Edge) (n : Nat) : List (List Nat) :=
  edges.foldl addEdgeRefs (List.replicate n [])

/-- Update a running minimum with one weight; a NaN weight never updates
(`w < min` is false for NaN `w`). -/
def updMin (cur : ℚ) (w : Val) : ℚ :=
  match w with
  | some x => if x < cur then x else cur
  | none => cur

/-- Update a running maximum with one weight. -/
def updMax (cur : ℚ) (w : Val) : ℚ :=
  match w with
  | some x => if x > cur then x else cur
  | none => cur

/-- Update a running absolute minimum with one weight. -/
def updAbsMin (cur : ℚ) (w : Val) : ℚ :=
  match w with
  | some x => if |x| < cur then |x| else cur
  | none => cur

/-- Update a running absolute maximum with one weight. -/
def updAbsMax (cur : ℚ) (w : Val) : ℚ :=
  match w with
  | some x => if |x| > cur then |x| else cur
  | none => cur

/-- Apply an update to the statistics entry of every weight index of one
edge (`for k in edge.weights`); statistics entries beyond the weight count
are untouched.  The two lists always have equal length in the source. -/
def updAll (f : ℚ → Val → ℚ) : List ℚ → List Val → List ℚ
  | [], _ => []
  | s, [] => s
  | c :: s, w :: ws => f c w :: updAll f s ws

/-- Running (min, max, absMin, absMax) statistics over all created edges,
starting from the `±Number.MAX_VALUE` sentinels. -/
def edgeStats (edges : List Edge) (numMats : Nat) : List ℚ × List ℚ × List ℚ × List ℚ :=
  edges.foldl
    (fun st e =>
      (updAll updMin st.1 e.weights,
       updAll updMax st.2.1 e.weights,
       updAll updAbsMin st.2.2.1 e.weights,
       updAll updAbsMax st.2.2.2 e.weights))
    (List.replicate numMats maxNumberValue,
     List.replicate numMats (-maxNumberValue),
     List.replicate numMats maxNumberValue,
     List.replicate numMats (-maxNumberValue))

/-- Row of a MATLAB linkage table: left id, right id (1-indexed, ids above
the node count referencing earlier rows), and merge distance. -/
abbrev LinkRow := Nat × Nat × ℚ

/-- Reference into the dendrogram arena: a network (leaf) node, or an
internal tree node by arena index. -/
inductive TreeRef where
  | leaf (i : Nat)
  | node (i : Nat)
deriving DecidableEq, Repr

/-- Dendrogram state of a network.  The mutable tree-node objects of the
source become an arena: entry `k` of `children` / `distance` / `treeIndex` /
`nodeParent` holds the fields of the `k`-th internal node ever created;
`leafParent` holds each network node's `parent` pointer; `treeNodes` is the
`network.treeNodes` array (arena indices), which `flattenDendrogramTree`
splices. -/
structure TState where
  numNodes : Nat
  children : List (List TreeRef)
  distance : List Val
  treeIndex : List Nat
  leafParent : List (Option Nat)
  nodeParent : List (Option Nat)
  treeNodes : List Nat
deriving DecidableEq, Repr

/-- Network object.  Nodes are identified with their index; `names` holds
`node.name`, `fullNetIndex` the back-reference a sub-network node keeps to
its parent-network node, `neighbours` the per-node neighbour index lists. -/
structure Network where
  numNodes : Nat
  names : List String
  fullNetIndex : List (Option Nat)
  matrices : List Matrix
  matrixLabels : List String
  nodeData : List (List Val)
  nodeDataLabels : List String
  linkage : Option (List LinkRow)
  thresholdFunc : Matrix → List JsVal → Matrix
  thresholdValues : List JsVal
  thresholdValueLabels : List JsVal
  thresholdIdx : Nat
  numClusters : Int
  edges : List Edge
  neighbours : List (List Nat)
  matrixMins : List ℚ
  matrixMaxs : List ℚ
  matrixAbsMins : List ℚ
  matrixAbsMaxs : List ℚ
  tree : Option TState

/-- Thresholded matrix a network's edges are currently defined by:
`network.thresholdFunc(network.matrices[network.thresholdIdx],
network.thresholdValues)`. -/
def appliedThr (net : Network) : Matrix :=
  net.thresholdFunc (net.matrices.getD net.thresholdIdx []) net.thresholdValues

/-- Embedding of `thresholdNetwork`: rebuild the edge list from the
thresholded matrix, re-initialise every node's neighbour list, and recompute
the four per-matrix statistics arrays. -/
def thresholdNetwork (net : Network) : Network :=
  let thr := appliedThr net
  let edges := buildEdges net.matrices thr net.numNodes
  let stats := edgeStats edges net.matrices.length
  { net with
    edges := edges
    neighbours := nbrsOf edges net.numNodes
    matrixMins := stats.1
    matrixMaxs := stats.2.1
    matrixAbsMins := stats.2.2.1
    matrixAbsMaxs := stats.2.2.2 }

/-- Per-row thresholds of the default threshold function: for each row,
`d3.max` of the absolute values times the threshold percentage
(`args[0]`, which is `undefined` — hence a NaN threshold — when the
threshold value list is empty). -/
def nodeThresholds (matrix : Matrix) (args : List JsVal) : List Val :=
  matrix.map (fun row => mulV (d3max (row.map absV)) (jsNum (args.get? 0)))

/-- Suppression test the default threshold function applies to entry
`(i, j)`: `|matrix[i][j]| < nodeThress[i] || |matrix[i][j]| < nodeThress[j]`.
Note that both comparisons test the same entry `(i, j)`. -/
def suppressed (matrix : Matrix) (args : List JsVal) (i j : Nat) : Bool :=
  ltV (absV (entry matrix i j)) ((nodeThresholds matrix args).getD i none) ||
  ltV (absV (entry matrix i j)) ((nodeThresholds matrix args).getD j none)

/-- Embedding of the default per-node percentile threshold function
`thresholdMatrix` of the demo driver: suppressed entries become NaN, the
rest are copied. -/
def thresholdMatrix (matrix : Matrix) (args : List JsVal) : Matrix :=
  (List.range matrix.length).map (fun i =>
    (List.range (matrix.getD i []).length).map (fun j =>
      if suppressed matrix args i j then none else entry matrix i j))

/-- Modelled from the spec (section 4.2 wording, the claim under test):
suppress `(i, j)` iff `|matrix[i][j]| < rowMax_i * p` OR
`|matrix[j][i]| < rowMax_j * p` — the second disjunct tests the transposed
entry, unlike the source. -/
def specSuppressed (matrix : Matrix) (args : List JsVal) (i j : Nat) : Bool :=
  ltV (absV (entry matrix i j)) ((nodeThresholds matrix args).getD i none) ||
  ltV (absV (entry matrix j i)) ((nodeThresholds matrix args).getD j none)

/-- Resolve one linkage id against the current construction state:
`id > numNodes` references `treeNodes[id - 1 - numNodes]` (only rows already
processed exist), otherwise `network.nodes[id - 1]` (so `id = 0` indexes a
missing slot).  `none` models the `undefined` the source then dereferences. -/
def resolveRef (numNodes built id : Nat) : Option TreeRef :=
  if id > numNodes then
    if id - 1 - numNodes < built then some (.node (id - 1 - numNodes)) else none
  else
    if 1 ≤ id then some (.leaf (id - 1)) else none

/-- Set the `parent` pointer of a leaf or internal node. -/
def setParent (s : TState) (x : TreeRef) (p : Nat) : TState :=
  match x with
  | .leaf i => { s with leafParent := s.leafParent.set i (some p) }
  | .node i => { s with nodeParent := s.nodeParent.set i (some p) }

/-- Dendrogram state before any linkage row is processed. -/
def initTState (numNodes : Nat) : TState :=
  { numNodes := numNodes
    children := []
    distance := []
    treeIndex := []
    leafParent := List.replicate numNodes none
    nodeParent := []
    treeNodes := [] }

/-- Row loop of `makeNetworkDendrogramTree`: resolve both ids, fail with the
`TypeError` the source hits when it writes `.parent` of `undefined`,
otherwise create the internal node (children, distance,
`index = row + numNodes`), reparent both children to it, and push it. -/
def buildTree (numNodes : Nat) (s : TState) : List LinkRow → Except NetErr TState
  | [] => .ok s
  | (l, r, d) :: rest =>
    let nid := s.treeNodes.length
    match resolveRef numNodes s.treeNodes.length l,
          resolveRef numNodes s.treeNodes.length r with
    | some lref, some rref =>
      let s1 := setParent (setParent s lref nid) rref nid
      buildTree numNodes
        { s1 with
          children := s1.children ++ [[lref, rref]]
          distance := s1.distance ++ [some d]
          treeIndex := s1.treeIndex ++ [s1.treeNodes.length + numNodes]
          nodeParent := s1.nodeParent ++ [none]
          treeNodes := s1.treeNodes ++ [nid] }
        rest
    | _, _ => .error .typeError

/-- Embedding of `makeNetworkDendrogramTree` applied to a fresh state. -/
def makeNetworkDendrogramTree (numNodes : Nat) (rows : List LinkRow) : Except NetErr TState :=
  buildTree numNodes (initTState numNodes) rows

/-- Parent pointers of the `numNodes` leaf nodes, the list
`network.nodes.map(function(node) {return node.parent;})`. -/
def leafParents (s : TState) : List (Option Nat) :=
  (List.range s.numNodes).map (fun i => s.leafParent.getD i none)

/-- Current active clusters: the distinct leaf parents, first occurrences
kept, exactly as the `getClusters` helper computes them. -/
def getClusters (s : TState) : List (Option Nat) :=
  uniqFirst (leafParents s)

/-- Children array of arena node `c`. -/
def childrenOf (s : TState) (c : Nat) : List TreeRef :=
  s.children.getD c []

/-- Unwrap every element of a list of options; `none` as soon as one element
is `none`, as the crashing `clusters.map(c => c.distance)` of the source
behaves when a leaf parent is `undefined`. -/
def allSome {α} : List (Option α) → Option (List α)
  | [] => some []
  | none :: _ => none
  | some x :: t => (allSome t).map (x :: ·)

/-- Selection part of one `while` iteration of `flattenDendrogramTree`:
map the active clusters to their distances (this is where the source
dereferences an `undefined` leaf parent and dies, modelled as `none`), take
`indexOf` of `d3.min` (first match on ties, `-1` — again a crash — when
there is nothing to index), and return the chosen cluster's arena id. -/
def pickCluster (s : TState) : Option Nat :=
  match allSome (getClusters s) with
  | none => none
  | some cids =>
    let distances := cids.map (fun c => s.distance.getD c none)
    let minIdx := jsIndexOf distances (d3min distances)
    if minIdx < 0 then none
    else some (cids.getD minIdx.toNat 0)

/-- Splice part of one `while` iteration of `flattenDendrogramTree`: remove
the chosen cluster `cid` from its parent `pid`'s children and from
`treeNodes`, then reattach each of its children to `pid` (parent pointer
update plus push, in source order). -/
def spliceCluster (s : TState) (cid pid : Nat) : TState :=
  let pCh := childrenOf s pid
  let children1 := s.children.set pid (jsRemoveAt pCh (jsIndexOf pCh (TreeRef.node cid)))
  let treeNodes1 := jsRemoveAt s.treeNodes (jsIndexOf s.treeNodes cid)
  let cCh := children1.getD cid []
  { s with
    children := children1.set pid ((children1.getD pid []) ++ cCh)
    leafParent := cCh.foldl
      (fun lp ch => match ch with | .leaf i => lp.set i (some pid) | .node _ => lp)
      s.leafParent
    nodeParent := cCh.foldl
      (fun np ch => match ch with | .node i => np.set i (some pid) | .leaf _ => np)
      s.nodeParent
    treeNodes := treeNodes1 }

/-- One iteration of the `while` loop of `flattenDendrogramTree`: pick the
active cluster of minimum distance and splice it out.  The `TypeError`s of
the source (reading `.distance` of an `undefined` cluster, or `.children`
of an `undefined` parent) become `.error .typeError`. -/
def flattenStep (s : TState) : Except NetErr TState :=
  match pickCluster s with
  | none => .error .typeError
  | some cid =>
    match s.nodeParent.getD cid none with
    | none => .error .typeError
    | some pid => .ok (spliceCluster s cid pid)

/-- Embedding of `flattenDendrogramTree`: repeat `flattenStep` while the
active cluster count exceeds `maxClusters`.  The source loop is unbounded;
`fuel` bounds the embedding, with exhaustion reported as `.fuelOut`. -/
def flattenDendrogramTree (fuel : Nat) (s : TState) (maxClusters : Int) : Except NetErr TState :=
  match fuel with
  | 0 => if ((getClusters s).length : Int) > maxClusters then .error .fuelOut else .ok s
  | fuel + 1 =>
    if ((getClusters s).length : Int) > maxClusters then
      match flattenStep s with
      | .error e => .error e
      | .ok s' => flattenDendrogramTree fuel s' maxClusters
    else .ok s

/-- Embedding of `setNumClusters`: nothing without linkage data; otherwise
rebuild the dendrogram from the linkage rows, flatten it, and record the
cluster count. -/
def setNumClusters (fuel : Nat) (net : Network) (numClusts : Int) : Except NetErr Network :=
  match net.linkage with
  | none => .ok net
  | some linkage =>
    match makeNetworkDendrogramTree net.numNodes linkage with
    | .error e => .error e
    | .ok t =>
      match flattenDendrogramTree fuel t numClusts with
      | .error e => .error e
      | .ok t' => .ok { net with tree := some t', numClusters := numClusts }

/-- Embedding of `createNetwork`: build the node list (1-indexed display
names), record all inputs, build the edges, then build and flatten the
dendrogram.  Thumbnail URLs and the colour/width scales are presentation
data and are not modelled. -/
def createNetwork (fuel : Nat) (matrices : List Matrix) (matrixLabels : List String)
    (nodeData : List (List Val)) (nodeDataLabels : List String)
    (linkage : Option (List LinkRow)) (thresholdFunc : Matrix → List JsVal → Matrix)
    (thresholdValues : List JsVal) (thresholdValueLabels : List JsVal)
    (thresholdIdx : Nat) (numClusters : Int) : Except NetErr Network :=
  let n := (matrices.getD 0 []).length
  let net0 : Network :=
    { numNodes := n
      names := (List.range n).map (fun i => toString (i + 1))
      fullNetIndex := List.replicate n none
      matrices := matrices
      matrixLabels := matrixLabels
      nodeData := nodeData
      nodeDataLabels := nodeDataLabels
      linkage := linkage
      thresholdFunc := thresholdFunc
      thresholdValues := thresholdValues
      thresholdValueLabels := thresholdValueLabels
      thresholdIdx := thresholdIdx
      numClusters := numClusters
      edges := []
      neighbours := []
      matrixMins := []
      matrixMaxs := []
      matrixAbsMins := []
      matrixAbsMaxs := []
      tree := none }
  setNumClusters fuel (thresholdNetwork net0) numClusters

/-- Embedding of `setThresholdValue`: range-check the parameter index, store
the value, rebuild edges, then recreate the dendrogram (colour scales are
presentation only). -/
def setThresholdValue (fuel : Nat) (net : Network) (idx : Int) (value : JsVal) : Except NetErr Network :=
  if idx < 0 ∨ (net.thresholdValues.length : Int) ≤ idx then .error .thresholdIndexError
  else
    let net1 := thresholdNetwork
      { net with thresholdValues := net.thresholdValues.set idx.toNat value }
    setNumClusters fuel net1 net1.numClusters

/-- Embedding of `setThresholdMatrix`: range-check the matrix index, store
it, and force re-thresholding through `setThresholdValue` at parameter
index 0 (the value passed is `thresholdValues[0]`, read back unchanged; it
is never used when that read is out of range, because `setThresholdValue`
throws first). -/
def setThresholdMatrix (fuel : Nat) (net : Network) (idx : Int) : Except NetErr Network :=
  if idx < 0 ∨ (net.matrices.length : Int) ≤ idx then .error .matrixIndexError
  else
    let net1 := { net with thresholdIdx := idx.toNat }
    setThresholdValue fuel net1 0 (net1.thresholdValues.getD 0 (JsVal.num 0))

/-- Embedding of `extractSubMatrix`: gather the rows and columns of the
given parent-network indices. -/
def extractSubMatrix (matrix : Matrix) (indices : List Nat) : Matrix :=
  indices.map (fun i => indices.map (fun j => entry matrix i j))

/-- Dummy single-cluster dendrogram the extractor attaches: one root node
(no `distance` field — `undefined`, hence `none`) whose children are all
sub-network nodes and which is every node's parent. -/
def dummyRootTree (n : Nat) : TState :=
  { numNodes := n
    children := [(List.range n).map TreeRef.leaf]
    distance := [none]
    treeIndex := [n]
    leafParent := List.replicate n (some 0)
    nodeParent := [none]
    treeNodes := [0] }

/-- Parent-network indices of the nodes of a sub-network: the root and its
neighbours, sorted ascending (`Array.sort` with the numeric comparator is a
stable sort). -/
def subNodeIdxs (net : Network) (rootIdx : Nat) : List Nat :=
  (rootIdx :: net.neighbours.getD rootIdx []).mergeSort (· ≤ ·)

/-- Embedding of `extractSubNetwork`: collect the root and its neighbours'
indices, sort them ascending, gather sub-matrices and sub node-data, build a
fresh network on them (no linkage, cluster count 1), then overwrite each
node's display name with the parent node's name, record the parent-network
index, and attach the dummy single-root tree.  Note the source passes
`network.thresholdValueLabels` and `network.thresholdValues` in that order,
which is SWAPPED relative to `createNetwork`'s parameter order
(`thresholdValues` before `thresholdValueLabels`): the sub-network is
thresholded with the labels as the threshold arguments. -/
def extractSubNetwork (fuel : Nat) (net : Network) (rootIdx : Nat) : Except NetErr Network :=
  let nodeIdxs := subNodeIdxs net rootIdx
  let subMatrices := net.matrices.map (fun m => extractSubMatrix m nodeIdxs)
  let subNodeData := net.nodeData.map (fun arr => nodeIdxs.map (fun idx => arr.getD idx none))
  match createNetwork fuel subMatrices net.matrixLabels subNodeData net.nodeDataLabels
      none net.thresholdFunc net.thresholdValueLabels net.thresholdValues
      net.thresholdIdx 1 with
  | .error e => .error e
  | .ok subnet =>
    .ok { subnet with
      names := (List.range subnet.numNodes).map
        (fun i => net.names.getD (nodeIdxs.getD i 0) "")
      fullNetIndex := (List.range subnet.numNodes).map
        (fun i => some (nodeIdxs.getD i 0))
      tree := some (dummyRootTree subnet.numNodes) }

/-! Generic list helpers used throughout the development. -/

lemma getD_set_self {α} (l : List α) (n : Nat) (a d : α) (h : n < l.length) :
    (l.set n a).getD n d = a := by
  simp [List.getD, List.getElem?_set_self', h]

lemma getD_set_ne {α} (l : List α) (m n : Nat) (a d : α) (h : m ≠ n) :
    (l.set m a).getD n d = l.getD n d := by
  simp [List.getD, List.getElem?_set_ne h]

lemma getD_of_ge {α} (l : List α) (n : Nat) (d : α) (h : l.length ≤ n) :
    l.getD n d = d := by
  simp [List.getD, List.getElem?_eq_none h]

lemma getD_mem {α} (l : List α) (n : Nat) (d : α) (h : n < l.length) :
    l.getD n d ∈ l := by
  rw [List.getD_eq_getElem l d h]
  exact List.getElem_mem h

lemma getD_map_range {α} (n : Nat) (f : Nat → α) (i : Nat) (d : α) (h : i < n) :
    ((List.range n).map f).getD i d = f i := by
  have hl : i < ((List.range n).map f).length := by simpa using h
  rw [List.getD_eq_getElem _ d hl]
  simp

lemma getD_append_left {α} (l l' : List α) (i : Nat) (d : α) (h : i < l.length) :
    (l ++ l').getD i d = l.getD i d := by
  rw [List.getD_eq_getElem _ d (by simp; omega), List.getD_eq_getElem _ d h]
  exact List.getElem_append_left h

lemma getD_append_right {α} (l : List α) (a d : α) :
    (l ++ [a]).getD l.length d = a := by
  rw [List.getD_eq_getElem _ d (by simp)]
  simp

lemma jsRemoveAt_indexOf {α} [DecidableEq α] (l : List α) (a : α) (h : a ∈ l) :
    jsRemoveAt l (jsIndexOf l a) = l.erase a := by
  unfold jsRemoveAt jsIndexOf spliceIdx
  rw [if_pos h, if_neg (not_lt.2 (Int.natCast_nonneg _))]
  simp [List.eraseIdx_indexOf_eq_erase]

lemma jsIndexOf_nonneg_iff {α} [DecidableEq α] (l : List α) (a : α) :
    0 ≤ jsIndexOf l a ↔ a ∈ l := by
  unfold jsIndexOf
  by_cases h : a ∈ l <;> simp [h]

/-! Properties of `uniqFirst`, the first-occurrence deduplication of
`getClusters`. -/

lemma mem_foldl_uniq {α} [DecidableEq α] (l acc : List α) (x : α) :
    x ∈ l.foldl (fun acc y => if y ∈ acc then acc else acc ++ [y]) acc ↔ x ∈ acc ∨ x ∈ l := by
  induction l generalizing acc with
  | nil => simp
  | cons a t ih =>
    simp only [List.foldl_cons]
    by_cases h : a ∈ acc
    · rw [if_pos h, ih]
      constructor
      · rintro (hx | hx)
        · exact Or.inl hx
        · exact Or.inr (List.mem_cons_of_mem a hx)
      · rintro (hx | hx)
        · exact Or.inl hx
        · rcases List.mem_cons.1 hx with rfl | hx
          · exact Or.inl h
          · exact Or.inr hx
    · rw [if_neg h, ih]
      simp only [List.mem_append, List.mem_singleton, List.mem_cons]
      tauto

lemma mem_uniqFirst {α} [DecidableEq α] (l : List α) (x : α) :
    x ∈ uniqFirst l ↔ x ∈ l := by
  unfold uniqFirst
  rw [mem_foldl_uniq]
  simp

lemma nodup_foldl_uniq {α} [DecidableEq α] (l acc : List α) (h : acc.Nodup) :
    (l.foldl (fun acc y => if y ∈ acc then acc else acc ++ [y]) acc).Nodup := by
  induction l generalizing acc with
  | nil => simpa
  | cons a t ih =>
    simp only [List.foldl_cons]
    by_cases ha : a ∈ acc
    · rw [if_pos ha]; exact ih acc h
    · rw [if_neg ha]
      exact ih _ (by simp [List.nodup_append, h, ha])

lemma nodup_uniqFirst {α} [DecidableEq α] (l : List α) : (uniqFirst l).Nodup :=
  nodup_foldl_uniq l [] List.nodup_nil

lemma uniqFirst_length_eq_card {α} [DecidableEq α] (l : List α) :
    (uniqFirst l).length = l.toFinset.card := by
  have h2 : (uniqFirst l).toFinset = l.toFinset := by
    ext x
    simp [List.mem_toFinset, mem_uniqFirst]
  rw [← List.toFinset_card_of_nodup (nodup_uniqFirst l), h2]

lemma uniqFirst_ne_nil {α} [DecidableEq α] (l : List α) (h : l ≠ []) : uniqFirst l ≠ [] := by
  intro hc
  rcases List.exists_mem_of_ne_nil l h with ⟨x, hx⟩
  have := (mem_uniqFirst l x).2 hx
  simp [hc] at this

lemma allSome_eq_some {α} (l : List (Option α)) (l' : List α) (h : allSome l = some l') :
    l = l'.map some := by
  induction l generalizing l' with
  | nil => simp [allSome] at h; simp [← h]
  | cons a t ih =>
    cases a with
    | none => simp [allSome] at h
    | some x =>
      simp only [allSome] at h
      cases ht : allSome t with
      | none => rw [ht] at h; simp at h
      | some t' =>
        rw [ht] at h
        simp only [Option.map_some'] at h
        obtain rfl : x :: t' = l' := by injection h
        simp [ih t' ht]

/-! Characterisation of the edge scan. -/

lemma mem_buildEdges {mats : List Matrix} {thr : Matrix} {n : Nat} {e : Edge} :
    e ∈ buildEdges mats thr n ↔
      ∃ i j, i < j ∧ j < n ∧ ¬(entry thr i j).isNone ∧
        e = { i := i, j := j, weights := mkWeights mats i j } := by
  constructor
  · intro h
    simp only [buildEdges, List.mem_flatMap, List.mem_filterMap, List.mem_range,
      List.mem_range'_1] at h
    obtain ⟨i, hi, j, ⟨hj1, hj2⟩, hif⟩ := h
    by_cases hnan : (entry thr i j).isNone
    · rw [if_pos hnan] at hif; cases hif
    · rw [if_neg hnan] at hif
      exact ⟨i, j, by omega, by omega, hnan, (Option.some_inj.1 hif).symm⟩
  · rintro ⟨i, j, hij, hjn, hnan, rfl⟩
    simp only [buildEdges, List.mem_flatMap, List.mem_filterMap, List.mem_range,
      List.mem_range'_1]
    exact ⟨i, by omega, j, ⟨by omega, by omega⟩, by rw [if_neg hnan]⟩

lemma thresholdNetwork_edges (net : Network) :
    (thresholdNetwork net).edges = buildEdges net.matrices (appliedThr net) net.numNodes := rfl

lemma thresholdNetwork_neighbours (net : Network) :
    (thresholdNetwork net).neighbours =
      nbrsOf (buildEdges net.matrices (appliedThr net) net.numNodes) net.numNodes := rfl

lemma buildEdges_bounds {mats : List Matrix} {thr : Matrix} {n : Nat} {e : Edge}
    (h : e ∈ buildEdges mats thr n) : e.i < e.j ∧ e.j < n := by
  obtain ⟨i, j, hij, hjn, -, rfl⟩ := mem_buildEdges.1 h
  exact ⟨hij, hjn⟩

/-! Neighbour-list facts. -/

lemma length_addEdgeRefs (acc : List (List Nat)) (e : Edge) :
    (addEdgeRefs acc e).length = acc.length := by
  simp [addEdgeRefs]

lemma getD_addEdgeRefs (acc : List (List Nat)) (e : Edge) (m : Nat)
    (hi : e.i < acc.length) (hj : e.j < acc.length) (hne : e.i ≠ e.j) :
    (addEdgeRefs acc e).getD m [] =
      if m = e.i then acc.getD m [] ++ [e.j]
      else if m = e.j then acc.getD m [] ++ [e.i]
      else acc.getD m [] := by
  unfold addEdgeRefs
  by_cases h1 : m = e.i
  · subst h1
    rw [if_pos rfl, getD_set_ne _ _ _ _ _ (fun hc => hne hc.symm), getD_set_self _ _ _ _ hi]
  · rw [if_neg h1]
    by_cases h2 : m = e.j
    · subst h2
      rw [if_pos rfl, getD_set_self _ _ _ _ (by simpa using hj),
        getD_set_ne _ _ _ _ _ (fun hc => h1 hc.symm)]
    · rw [if_neg h2, getD_set_ne _ _ _ _ _ (fun hc => h2 hc.symm),
        getD_set_ne _ _ _ _ _ (fun hc => h1 hc.symm)]

lemma mem_foldl_addEdgeRefs (edges : List Edge) (acc : List (List Nat)) (n : Nat)
    (hlen : acc.length = n) (hb : ∀ e ∈ edges, e.i < e.j ∧ e.j < n) (i j : Nat) :
    i ∈ (edges.foldl addEdgeRefs acc).getD j [] ↔
      i ∈ acc.getD j [] ∨ ∃ e ∈ edges, (e.i = i ∧ e.j = j) ∨ (e.i = j ∧ e.j = i) := by
  induction edges generalizing acc with
  | nil => simp
  | cons e es ih =>
    have hbe := hb e (List.mem_cons_self e es)
    have hbes : ∀ e' ∈ es, e'.i < e'.j ∧ e'.j < n := fun e' he' => hb e' (List.mem_cons_of_mem e he')
    simp only [List.foldl_cons]
    rw [ih (addEdgeRefs acc e) (by rw [length_addEdgeRefs]; exact hlen) hbes]
    rw [getD_addEdgeRefs acc e j (by omega) (by omega) (by omega)]
    constructor
    · rintro (hx | hx)
      · by_cases h1 : j = e.i
        · rw [if_pos h1] at hx
          rcases List.mem_append.1 hx with hx | hx
          · exact Or.inl hx
          · refine Or.inr ⟨e, List.mem_cons_self e es, Or.inr ⟨h1.symm, ?_⟩⟩
            exact ((by simpa using hx : i = e.j)).symm
        · rw [if_neg h1] at hx
          by_cases h2 : j = e.j
          · rw [if_pos h2] at hx
            rcases List.mem_append.1 hx with hx | hx
            · exact Or.inl hx
            · refine Or.inr ⟨e, List.mem_cons_self e es, Or.inl ⟨?_, h2.symm⟩⟩
              exact ((by simpa using hx : i = e.i)).symm
          · rw [if_neg h2] at hx
            exact Or.inl hx
      · obtain ⟨e', he', hor⟩ := hx
        exact Or.inr ⟨e', List.mem_cons_of_mem e he', hor⟩
    · rintro (hx | ⟨e', he', hor⟩)
      · left
        by_cases h1 : j = e.i
        · rw [if_pos h1]; exact List.mem_append_left _ hx
        · rw [if_neg h1]
          by_cases h2 : j = e.j
          · rw [if_pos h2]; exact List.mem_append_left _ hx
          · rw [if_neg h2]; exact hx
      · rcases List.mem_cons.1 he' with rfl | he'
        · left
          rcases hor with ⟨rfl, rfl⟩ | ⟨rfl, rfl⟩
          · rw [if_neg (by omega), if_pos rfl]
            exact List.mem_append_right _ (by simp)
          · rw [if_pos rfl]
            exact List.mem_append_right _ (by simp)
        · exact Or.inr ⟨e', he', hor⟩

lemma mem_nbrsOf (edges : List Edge) (n : Nat)
    (hb : ∀ e ∈ edges, e.i < e.j ∧ e.j < n) (i j : Nat) :
    i ∈ (nbrsOf edges n).getD j [] ↔
      ∃ e ∈ edges, (e.i = i ∧ e.j = j) ∨ (e.i = j ∧ e.j = i) := by
  unfold nbrsOf
  rw [mem_foldl_addEdgeRefs edges _ n (by simp) hb]
  have : (List.replicate n ([] : List Nat)).getD j [] = [] := by
    by_cases h : j < n
    · rw [List.getD_eq_getElem _ _ (by simpa using h)]; simp
    · exact getD_of_ge _ _ _ (by simpa using not_lt.1 h)
  simp [this]

/-! Example inputs for witnesses and counterexamples. -/

/-- Already-thresholded example matrix `[[0,5,NaN],[5,0,1],[NaN,1,0]]` of the
specification. -/
def exM1 : Matrix :=
  [[some 0, some 5, none], [some 5, some 0, some 1], [none, some 1, some 0]]

/-- Network holding `exM1` with the identity threshold function (the matrix
is already thresholded). -/
def exNet1 : Network :=
  { numNodes := 3
    names := ["1", "2", "3"]
    fullNetIndex := [none, none, none]
    matrices := [exM1]
    matrixLabels := ["m"]
    nodeData := []
    nodeDataLabels := []
    linkage := none
    thresholdFunc := fun m _ => m
    thresholdValues := []
    thresholdValueLabels := []
    thresholdIdx := 0
    numClusters := 1
    edges := []
    neighbours := []
    matrixMins := []
    matrixMaxs := []
    matrixAbsMins := []
    matrixAbsMaxs := []
    tree := none }

/-- Non-symmetric 2×2 matrix separating the source's suppression test from
the specification's. -/
def m2ex : Matrix := [[some 0, some 5], [some 1, some 0]]

/-- Symmetric 2×2 matrix for the suppression-symmetry witness. -/
def m2sym : Matrix := [[some 0, some 3], [some 3, some 0]]

/-- Network whose thresholded matrix is NaN off the diagonal, so that no
edge at all is created. -/
def exNet9 : Network :=
  { exNet1 with
    numNodes := 2
    names := ["1", "2"]
    fullNetIndex := [none, none]
    matrices := [[[some 0, none], [none, some 0]]] }

/-- C1.  For every network and every unordered node pair `(i, j)` with
`i < j`, the graph builder creates an edge for `(i, j)` iff the thresholded
matrix entry at `[i][j]` is not NaN, and a created edge's weight vector has
one entry per matrix, equal to that matrix's raw `[i][j]` value; on the
already-thresholded matrix `[[0,5,NaN],[5,0,1],[NaN,1,0]]` exactly the
edges `(0,1)` (weight 5) and `(1,2)` (weight 1) result, with node 0 having
neighbours `[1]` and node 1 having neighbours `[0, 2]`. -/
theorem claim1 :
    (∀ (net : Network) (i j : Nat), i < j → j < net.numNodes →
      ((∃ e ∈ (thresholdNetwork net).edges, e.i = i ∧ e.j = j) ↔
        ¬(entry (appliedThr net) i j).isNone))
    ∧ (∀ (net : Network), ∀ e ∈ (thresholdNetwork net).edges,
        e.weights = net.matrices.map (fun m => entry m e.i e.j))
    ∧ (thresholdNetwork exNet1).edges =
        [{ i := 0, j := 1, weights := [some 5] }, { i := 1, j := 2, weights := [some 1] }]
    ∧ (thresholdNetwork exNet1).neighbours = [[1], [0, 2], [1]] := by
  refine ⟨?_, ?_, by decide, by decide⟩
  · intro net i j hij hjn
    rw [thresholdNetwork_edges]
    constructor
    · rintro ⟨e, he, hi, hj⟩
      obtain ⟨i', j', hij', hjn', hnan, rfl⟩ := mem_buildEdges.1 he
      obtain rfl : i' = i := hi
      obtain rfl : j' = j := hj
      exact hnan
    · intro hnan
      exact ⟨_, mem_buildEdges.2 ⟨i, j, hij, hjn, hnan, rfl⟩, rfl, rfl⟩
  · intro net e he
    rw [thresholdNetwork_edges] at he
    obtain ⟨i, j, -, -, -, rfl⟩ := mem_buildEdges.1 he
    rfl

/-- Witness for C1: the universally quantified parts instantiated on the
specification's example network at pair `(0, 1)`. -/
theorem claim1_witness :
    ((∃ e ∈ (thresholdNetwork exNet1).edges, e.i = 0 ∧ e.j = 1) ↔
      ¬(entry (appliedThr exNet1) 0 1).isNone)
    ∧ ({ i := 0, j := 1, weights := [some 5] } : Edge).weights =
        exNet1.matrices.map (fun m => entry m 0 1) :=
  ⟨claim1.1 exNet1 0 1 (by decide) (by decide),
   claim1.2.1 exNet1 { i := 0, j := 1, weights := [some 5] } (by decide)⟩

/-- C2 (amended).  The default per-node percentile threshold suppresses
entry `(i, j)` exactly when `|m[i][j]| < rowMax_i * p` or
`|m[i][j]| < rowMax_j * p` — both tests read the same entry `(i, j)`, not
the transposed entry — and consequently suppression is symmetric for
symmetric input (but not for non-symmetric input, see the
counterexample). -/
theorem claim2 :
    (∀ (matrix : Matrix) (args : List JsVal) (i j : Nat),
      i < matrix.length → j < (matrix.getD i []).length →
      entry (thresholdMatrix matrix args) i j =
        if suppressed matrix args i j then none else entry matrix i j)
    ∧ (∀ (matrix : Matrix) (args : List JsVal) (i j : Nat),
      (∀ a b, entry matrix a b = entry matrix b a) →
      suppressed matrix args i j = suppressed matrix args j i) := by
  constructor
  · intro matrix args i j hi hj
    show ((thresholdMatrix matrix args).getD i []).getD j none = _
    unfold thresholdMatrix
    rw [getD_map_range _ _ _ _ hi, getD_map_range _ _ _ _ hj]
  · intro matrix args i j hsym
    unfold suppressed
    rw [hsym j i]
    exact Bool.or_comm _ _

/-- Counterexample for C2 as stated: on the non-symmetric matrix
`[[0,5],[1,0]]` with `p = 1/2`, entry `(1,0)` is suppressed by the code
although the specification's formula does not suppress it, and entry
`(0,1)` survives — so suppression is not symmetric. -/
theorem claim2_counterexample :
    entry (thresholdMatrix m2ex [JsVal.num (1/2)]) 1 0 = none
    ∧ specSuppressed m2ex [JsVal.num (1/2)] 1 0 = false
    ∧ entry (thresholdMatrix m2ex [JsVal.num (1/2)]) 0 1 = some 5
    ∧ suppressed m2ex [JsVal.num (1/2)] 1 0 = true := by with_unfolding_all decide

/-- Witness for C2: the characterisation instantiated at entry `(0, 1)` of
the counterexample matrix, and the symmetry part instantiated on a
symmetric matrix. -/
theorem claim2_witness :
    (entry (thresholdMatrix m2ex [JsVal.num (1/2)]) 0 1 =
      if suppressed m2ex [JsVal.num (1/2)] 0 1 then none else entry m2ex 0 1)
    ∧ suppressed m2sym [JsVal.num (1/2)] 0 1 = suppressed m2sym [JsVal.num (1/2)] 1 0 :=
  ⟨claim2.1 m2ex [JsVal.num (1/2)] 0 1 (by decide) (by decide),
   claim2.2 m2sym [JsVal.num (1/2)] 0 1 (by
    intro a b
    match a, b with
    | 0, 0 => rfl
    | 0, 1 => rfl
    | 1, 0 => rfl
    | 1, 1 => rfl
    | 0, b+2 => rfl
    | 1, b+2 => rfl
    | a+2, 0 => rfl
    | a+2, 1 => rfl
    | a+2, b+2 => rfl)⟩

/-- C9.  If the thresholded matrix is NaN at every off-diagonal entry, the
scan creates no edge and completes, leaving every statistic at its
initialisation sentinel: mins and abs-mins at `Number.MAX_VALUE`, maxs and
abs-maxs at `-Number.MAX_VALUE`. -/
theorem claim9 (net : Network)
    (h : ∀ i j, i ≠ j → i < net.numNodes → j < net.numNodes →
      (entry (appliedThr net) i j).isNone) :
    (thresholdNetwork net).edges = []
    ∧ (thresholdNetwork net).matrixMins = List.replicate net.matrices.length maxNumberValue
    ∧ (thresholdNetwork net).matrixMaxs = List.replicate net.matrices.length (-maxNumberValue)
    ∧ (thresholdNetwork net).matrixAbsMins = List.replicate net.matrices.length maxNumberValue
    ∧ (thresholdNetwork net).matrixAbsMaxs = List.replicate net.matrices.length (-maxNumberValue) := by
  have hemp : buildEdges net.matrices (appliedThr net) net.numNodes = [] := by
    rw [List.eq_nil_iff_forall_not_mem]
    intro e he
    obtain ⟨i, j, hij, hjn, hnan, rfl⟩ := mem_buildEdges.1 he
    exact hnan (h i j (by omega) (by omega) (by omega))
  refine ⟨hemp, ?_, ?_, ?_, ?_⟩
  · show (edgeStats (buildEdges net.matrices (appliedThr net) net.numNodes) net.matrices.length).1 = _
    rw [hemp]; rfl
  · show (edgeStats (buildEdges net.matrices (appliedThr net) net.numNodes) net.matrices.length).2.1 = _
    rw [hemp]; rfl
  · show (edgeStats (buildEdges net.matrices (appliedThr net) net.numNodes) net.matrices.length).2.2.1 = _
    rw [hemp]; rfl
  · show (edgeStats (buildEdges net.matrices (appliedThr net) net.numNodes) net.matrices.length).2.2.2 = _
    rw [hemp]; rfl

/-- Witness for C9: the all-NaN-off-diagonal hypothesis discharged on a
concrete two-node network. -/
theorem claim9_witness :
    (thresholdNetwork exNet9).edges = []
    ∧ (thresholdNetwork exNet9).matrixMins = List.replicate exNet9.matrices.length maxNumberValue
    ∧ (thresholdNetwork exNet9).matrixMaxs = List.replicate exNet9.matrices.length (-maxNumberValue)
    ∧ (thresholdNetwork exNet9).matrixAbsMins = List.replicate exNet9.matrices.length maxNumberValue
    ∧ (thresholdNetwork exNet9).matrixAbsMaxs = List.replicate exNet9.matrices.length (-maxNumberValue) := by
  refine claim9 exNet9 ?_
  intro i j hne hi hj
  have hi2 : i < 2 := hi
  have hj2 : j < 2 := hj
  interval_cases i <;> interval_cases j <;> first | exact absurd rfl hne | decide

/-! State-mutation plumbing facts. -/

lemma set_getD_self {α} (l : List α) (n : Nat) (d : α) (h : n < l.length) :
    l.set n (l.getD n d) = l := by
  rw [List.getD_eq_getElem l d h]
  apply List.ext_getElem (by simp)
  intro i h1 h2
  by_cases hi : i = n
  · subst hi; simp
  · rw [List.getElem_set_ne (by omega)]

lemma setNumClusters_shape (fuel : Nat) (net : Network) (K : Int) (net' : Network)
    (h : setNumClusters fuel net K = .ok net') :
    net' = net ∨ ∃ t', net' = { net with tree := some t', numClusters := K } := by
  unfold setNumClusters at h
  cases hl : net.linkage with
  | none =>
    rw [hl] at h
    injection h with h
    exact Or.inl h.symm
  | some linkage =>
    rw [hl] at h
    dsimp only at h
    cases hb : makeNetworkDendrogramTree net.numNodes linkage with
    | error e => rw [hb] at h; dsimp only at h; cases h
    | ok t =>
      rw [hb] at h
      dsimp only at h
      cases hf : flattenDendrogramTree fuel t K with
      | error e => rw [hf] at h; dsimp only at h; cases h
      | ok t' =>
        rw [hf] at h
        dsimp only at h
        injection h with h
        exact Or.inr ⟨t', h.symm⟩

lemma setNumClusters_preserves (fuel : Nat) (net : Network) (K : Int) (net' : Network)
    (h : setNumClusters fuel net K = .ok net') :
    net'.edges = net.edges ∧ net'.neighbours = net.neighbours ∧
    net'.thresholdValues = net.thresholdValues ∧ net'.thresholdIdx = net.thresholdIdx ∧
    net'.matrices = net.matrices ∧ net'.numNodes = net.numNodes ∧
    net'.names = net.names ∧ net'.fullNetIndex = net.fullNetIndex := by
  rcases setNumClusters_shape fuel net K net' h with rfl | ⟨t', rfl⟩
  · exact ⟨rfl, rfl, rfl, rfl, rfl, rfl, rfl, rfl⟩
  · exact ⟨rfl, rfl, rfl, rfl, rfl, rfl, rfl, rfl⟩

lemma nbr_symm (net : Network) (i j : Nat) :
    i ∈ (thresholdNetwork net).neighbours.getD j [] ↔
      j ∈ (thresholdNetwork net).neighbours.getD i [] := by
  rw [thresholdNetwork_neighbours]
  rw [mem_nbrsOf _ _ (fun e he => buildEdges_bounds he) i j]
  rw [mem_nbrsOf _ _ (fun e he => buildEdges_bounds he) j i]
  exact exists_congr fun e => and_congr_right fun _ => or_comm

/-- C5.  After construction or any rethreshold, edge membership for the
unordered pair `(i, j)` is the same however the pair is oriented, and node
`i` appears in node `j`'s neighbour list iff node `j` appears in node `i`'s
list — for the output of `thresholdNetwork` itself, of `createNetwork`, and
of `setThresholdValue`. -/
theorem claim5 :
    (∀ (net : Network) (i j : Nat),
      ((∃ e ∈ (thresholdNetwork net).edges, (e.i = i ∧ e.j = j) ∨ (e.i = j ∧ e.j = i)) ↔
        (∃ e ∈ (thresholdNetwork net).edges, (e.i = j ∧ e.j = i) ∨ (e.i = i ∧ e.j = j)))
      ∧ (i ∈ (thresholdNetwork net).neighbours.getD j [] ↔
          j ∈ (thresholdNetwork net).neighbours.getD i []))
    ∧ (∀ (fuel : Nat) (mats : List Matrix) (mlab : List String) (nd : List (List Val))
        (ndlab : List String) (link : Option (List LinkRow)) (tf : Matrix → List JsVal → Matrix)
        (tv : List JsVal) (tvl : List JsVal) (tidx : Nat) (K : Int) (net' : Network),
        createNetwork fuel mats mlab nd ndlab link tf tv tvl tidx K = .ok net' →
        ∀ i j, i ∈ net'.neighbours.getD j [] ↔ j ∈ net'.neighbours.getD i [])
    ∧ (∀ (fuel : Nat) (net : Network) (idx : Int) (v : JsVal) (net' : Network),
        setThresholdValue fuel net idx v = .ok net' →
        ∀ i j, i ∈ net'.neighbours.getD j [] ↔ j ∈ net'.neighbours.getD i []) := by
  refine ⟨fun net i j => ⟨?_, nbr_symm net i j⟩, ?_, ?_⟩
  · exact exists_congr fun e => and_congr_right fun _ => or_comm
  · intro fuel mats mlab nd ndlab link tf tv tvl tidx K net' h i j
    unfold createNetwork at h
    have hp := setNumClusters_preserves _ _ _ _ h
    rw [hp.2.1]
    exact nbr_symm _ i j
  · intro fuel net idx v net' h i j
    unfold setThresholdValue at h
    split at h
    · cases h
    · have hp := setNumClusters_preserves _ _ _ _ h
      rw [hp.2.1]
      exact nbr_symm _ i j

/-- Network with a non-empty threshold value list (the identity threshold
function ignores the values). -/
def exNet6 : Network :=
  thresholdNetwork
    { exNet1 with thresholdValues := [JsVal.num 1], thresholdValueLabels := [JsVal.str "t"] }

/-- Result of re-applying threshold parameter 0 of `exNet6` at its current
value. -/
def exNet6res : Network :=
  match setThresholdValue 1 exNet6 0 (exNet6.thresholdValues.getD 0 (JsVal.num 0)) with
  | .ok x => x
  | .error _ => exNet6

lemma setThresholdValue_zero_same (fuel : Nat) (net net' : Network)
    (hlen : 0 < net.thresholdValues.length)
    (hok : setThresholdValue fuel net 0 (net.thresholdValues.getD 0 (JsVal.num 0)) = .ok net') :
    net'.edges = (thresholdNetwork net).edges ∧
    net'.thresholdValues = net.thresholdValues ∧
    net'.thresholdIdx = net.thresholdIdx := by
  unfold setThresholdValue at hok
  split at hok
  · cases hok
  · rw [show (Int.toNat 0) = 0 from rfl, set_getD_self _ _ _ hlen] at hok
    have heq : ({ net with thresholdValues := net.thresholdValues } : Network) = net := rfl
    rw [heq] at hok
    have hp := setNumClusters_preserves _ _ _ _ hok
    exact ⟨hp.1, hp.2.2.1, hp.2.2.2.1⟩

/-- C6.  Calling `setThresholdValue` with the value the parameter already
holds yields a network whose edge list — hence edge-set membership — is
identical to the edge list before the call, for every network whose edges
are consistent with its threshold state. -/
theorem claim6 (fuel : Nat) (net net' : Network) (idx : Int)
    (hcons : net.edges = (thresholdNetwork net).edges)
    (hok : setThresholdValue fuel net idx (net.thresholdValues.getD idx.toNat (JsVal.num 0)) = .ok net') :
    net'.edges = net.edges ∧ ∀ e : Edge, e ∈ net'.edges ↔ e ∈ net.edges := by
  unfold setThresholdValue at hok
  split at hok
  · cases hok
  · rename_i hrange
    have hlt : idx.toNat < net.thresholdValues.length := by omega
    rw [set_getD_self _ _ _ hlt] at hok
    have heq : ({ net with thresholdValues := net.thresholdValues } : Network) = net := rfl
    rw [heq] at hok
    have hp := setNumClusters_preserves _ _ _ _ hok
    have he : net'.edges = net.edges := hp.1.trans hcons.symm
    exact ⟨he, fun e => by rw [he]⟩

/-- Witness for C6: the consistency hypothesis and the success of the call
discharged on a concrete network. -/
theorem claim6_witness : exNet6res.edges = exNet6.edges ∧
    ∀ e : Edge, e ∈ exNet6res.edges ↔ e ∈ exNet6.edges :=
  claim6 1 exNet6 exNet6res 0 (by decide) rfl

/-- Network built by `createNetwork` for the C5 witness. -/
def exNet5c : Network :=
  match createNetwork 1 [exM1] ["m"] [] [] none (fun m _ => m) [] [] 0 1 with
  | .ok x => x
  | .error _ => exNet1

/-- Witness for C5: the three parts instantiated at concrete networks and
node pairs, with the success hypotheses of the `createNetwork` and
`setThresholdValue` parts discharged definitionally. -/
theorem claim5_witness :
    ((0 : Nat) ∈ (thresholdNetwork exNet1).neighbours.getD 1 [] ↔
      (1 : Nat) ∈ (thresholdNetwork exNet1).neighbours.getD 0 [])
    ∧ ((0 : Nat) ∈ exNet5c.neighbours.getD 1 [] ↔ (1 : Nat) ∈ exNet5c.neighbours.getD 0 [])
    ∧ ((0 : Nat) ∈ exNet6res.neighbours.getD 1 [] ↔ (1 : Nat) ∈ exNet6res.neighbours.getD 0 []) :=
  ⟨(claim5.1 exNet1 0 1).2,
   claim5.2.1 1 [exM1] ["m"] [] [] none (fun m _ => m) [] [] 0 1 exNet5c rfl 0 1,
   claim5.2.2 1 exNet6 0 (exNet6.thresholdValues.getD 0 (JsVal.num 0)) exNet6res rfl 0 1⟩

/-- Result of switching `exNet6`'s threshold matrix index to 0. -/
def exNet10res : Network :=
  match setThresholdMatrix 1 exNet6 0 with
  | .ok x => x
  | .error _ => exNet6

/-- C10.  With an empty threshold-value list, `setThresholdMatrix` fails
even on a valid matrix index — after storing the index it delegates to
`setThresholdValue` at parameter index 0, which is out of range; with at
least one threshold parameter it re-thresholds with the new matrix index
while leaving the value of parameter 0 (indeed the whole value list)
unchanged. -/
theorem claim10 :
    (∀ (fuel : Nat) (net : Network) (idx : Int),
      net.thresholdValues = [] → 0 ≤ idx → idx < (net.matrices.length : Int) →
      setThresholdMatrix fuel net idx = .error .thresholdIndexError)
    ∧ (∀ (fuel : Nat) (net : Network) (idx : Int) (net' : Network),
      net.thresholdValues ≠ [] →
      setThresholdMatrix fuel net idx = .ok net' →
      net'.thresholdValues = net.thresholdValues ∧
      net'.thresholdIdx = idx.toNat ∧
      net'.edges = (thresholdNetwork { net with thresholdIdx := idx.toNat }).edges) := by
  constructor
  · intro fuel net idx hempty h0 hlt
    unfold setThresholdMatrix
    rw [if_neg (by omega)]
    unfold setThresholdValue
    rw [if_pos ?_]
    show (0 : Int) < 0 ∨ (net.thresholdValues.length : Int) ≤ 0
    rw [hempty]
    norm_num
  · intro fuel net idx net' hne hok
    unfold setThresholdMatrix at hok
    split at hok
    · cases hok
    · dsimp only at hok
      have hlen : 0 < ({ net with thresholdIdx := idx.toNat } : Network).thresholdValues.length :=
        List.length_pos.2 hne
      have hp := setThresholdValue_zero_same fuel _ net' hlen hok
      exact ⟨hp.2.1, hp.2.2, hp.1⟩

/-- Witness for C10: both parts instantiated — failure on `exNet1` (empty
value list, valid matrix index 0) and success on `exNet6`. -/
theorem claim10_witness :
    setThresholdMatrix 1 exNet1 0 = .error .thresholdIndexError
    ∧ (exNet10res.thresholdValues = exNet6.thresholdValues ∧
       exNet10res.thresholdIdx = (0 : Int).toNat ∧
       exNet10res.edges = (thresholdNetwork { exNet6 with thresholdIdx := (0 : Int).toNat }).edges) :=
  ⟨claim10.1 1 exNet1 0 rfl (by norm_num) (by decide),
   claim10.2 1 exNet6 0 exNet10res (by decide) rfl⟩

instance {ε α : Type} [DecidableEq ε] [DecidableEq α] : DecidableEq (Except ε α)
  | .error e, .error e' =>
    decidable_of_iff (e = e') ⟨fun h => h ▸ rfl, fun h => by injection h⟩
  | .ok a, .ok a' =>
    decidable_of_iff (a = a') ⟨fun h => h ▸ rfl, fun h => by injection h⟩
  | .error _, .ok _ => isFalse (fun h => Except.noConfusion h)
  | .ok _, .error _ => isFalse (fun h => Except.noConfusion h)

/-! Dendrogram reducer: basic facts. -/

lemma leafParents_length (s : TState) : (leafParents s).length = s.numNodes := by
  simp [leafParents]

lemma getClusters_pos (s : TState) (h : 1 ≤ s.numNodes) : 1 ≤ (getClusters s).length := by
  have hne : leafParents s ≠ [] := by
    intro hc
    have := leafParents_length s
    rw [hc] at this
    simp at this
    omega
  have := uniqFirst_ne_nil _ hne
  have : getClusters s ≠ [] := this
  exact List.length_pos.2 this

lemma spliceCluster_numNodes (s : TState) (cid pid : Nat) :
    (spliceCluster s cid pid).numNodes = s.numNodes := rfl

lemma flattenStep_numNodes (s s' : TState) (h : flattenStep s = .ok s') :
    s'.numNodes = s.numNodes := by
  unfold flattenStep at h
  cases hp : pickCluster s with
  | none => rw [hp] at h; cases h
  | some cid =>
    rw [hp] at h
    dsimp only at h
    cases hq : s.nodeParent.getD cid none with
    | none => rw [hq] at h; cases h
    | some pid =>
      rw [hq] at h
      dsimp only at h
      injection h with h
      rw [← h]
      rfl

/-- C7 (amended).  The source never validates the cluster count and has no
`ClusterError`: with at least one node, reduction with `K < 1` can never
terminate normally — the active-cluster count is always at least 1, so the
loop keeps splicing until it dies with a `TypeError` (or, in the bounded
embedding, runs out of fuel); no `.ok` result is possible for any fuel. -/
theorem claim7 (fuel : Nat) (s : TState) (K : Int) (hn : 1 ≤ s.numNodes) (hK : K < 1) :
    ∀ s', flattenDendrogramTree fuel s K ≠ .ok s' := by
  induction fuel generalizing s with
  | zero =>
    intro s' h
    have hc := getClusters_pos s hn
    have hc' : (1 : Int) ≤ ((getClusters s).length : Int) := by exact_mod_cast hc
    unfold flattenDendrogramTree at h
    rw [if_pos (by omega)] at h
    cases h
  | succ fuel ih =>
    intro s' h
    have hc := getClusters_pos s hn
    have hc' : (1 : Int) ≤ ((getClusters s).length : Int) := by exact_mod_cast hc
    unfold flattenDendrogramTree at h
    rw [if_pos (by omega)] at h
    cases hs : flattenStep s with
    | error e => rw [hs] at h; cases h
    | ok s1 =>
      rw [hs] at h
      exact ih s1 (by rw [flattenStep_numNodes s s1 hs]; exact hn) s' h

/-- Two-leaf dendrogram tree built from the linkage row `[1, 2, 1]`. -/
def exT7 : TState :=
  match makeNetworkDendrogramTree 2 [(1, 2, 1)] with
  | .ok t => t
  | .error _ => initTState 2

/-- Counterexample for C7 as stated: reducing the concrete two-leaf tree to
`K = 0` clusters fails with the implicit `TypeError` of splicing the
parentless root — not with any `ClusterError` (no code path raises one). -/
theorem claim7_counterexample :
    flattenDendrogramTree 5 exT7 0 = .error .typeError
    ∧ flattenDendrogramTree 5 exT7 0 ≠ .error .clusterError := by decide

/-- Witness for C7: the amended theorem instantiated on the concrete
two-leaf tree with `K = 0`. -/
theorem claim7_witness : flattenDendrogramTree 5 exT7 0 ≠ .ok exT7 :=
  claim7 5 exT7 0 (by decide) (by decide) exT7

/-! Dendrogram builder: validity of linkage references. -/

/-- Validity of one linkage row when `cnt` internal nodes have already been
built: both ids must resolve. -/
def rowValid (numNodes cnt : Nat) (row : LinkRow) : Bool :=
  (resolveRef numNodes cnt row.1).isSome && (resolveRef numNodes cnt row.2.1).isSome

lemma setParent_treeNodes (s : TState) (x : TreeRef) (p : Nat) :
    (setParent s x p).treeNodes = s.treeNodes := by
  cases x <;> rfl

lemma buildTree_ok_rows (n : Nat) (rows : List LinkRow) (s t : TState)
    (h : buildTree n s rows = .ok t) :
    ∀ i, i < rows.length → rowValid n (s.treeNodes.length + i) (rows.getD i (0, 0, 0)) = true := by
  induction rows generalizing s with
  | nil => intro i hi; simp at hi
  | cons row rest ih =>
    obtain ⟨l, r, d⟩ := row
    unfold buildTree at h
    cases hl : resolveRef n s.treeNodes.length l with
    | none => rw [hl] at h; dsimp only at h; cases h
    | some lref =>
      rw [hl] at h
      cases hr : resolveRef n s.treeNodes.length r with
      | none => rw [hr] at h; dsimp only at h; cases h
      | some rref =>
        rw [hr] at h
        dsimp only at h
        intro i hi
        cases i with
        | zero =>
          simp only [List.getD_cons_zero, Nat.add_zero]
          simp [rowValid, hl, hr]
        | succ i =>
          have hstep := ih _ h i (by simpa using hi)
          have hlen : (setParent (setParent s lref (s.treeNodes.length))
              rref (s.treeNodes.length)).treeNodes = s.treeNodes := by
            rw [setParent_treeNodes, setParent_treeNodes]
          rw [List.length_append, setParent_treeNodes, setParent_treeNodes] at hstep
          simpa [Nat.add_assoc, Nat.add_comm 1 i] using hstep

lemma buildTree_ok_or (n : Nat) (rows : List LinkRow) (s : TState) :
    (∃ t, buildTree n s rows = .ok t) ∨ buildTree n s rows = .error .typeError := by
  induction rows generalizing s with
  | nil => exact Or.inl ⟨s, rfl⟩
  | cons row rest ih =>
    obtain ⟨l, r, d⟩ := row
    unfold buildTree
    cases hl : resolveRef n s.treeNodes.length l with
    | none => exact Or.inr rfl
    | some lref =>
      cases hr : resolveRef n s.treeNodes.length r with
      | none => exact Or.inr rfl
      | some rref => exact ih _

/-- C8 (amended).  The builder fails on every linkage table containing a row
one of whose ids is outside the constructed range at that point (forward
references included) — but the failure is the implicit `TypeError` of
writing `.parent` on `undefined`, not a dedicated `LinkageError` (the
source defines no error classes at all). -/
theorem claim8 (n : Nat) (rows : List LinkRow)
    (hbad : ∃ i, i < rows.length ∧ rowValid n i (rows.getD i (0, 0, 0)) = false) :
    makeNetworkDendrogramTree n rows = .error .typeError := by
  obtain ⟨i, hi, hrow⟩ := hbad
  rcases buildTree_ok_or n rows (initTState n) with ⟨t, ht⟩ | herr
  · have hok := buildTree_ok_rows n rows _ t ht i hi
    rw [show (initTState n).treeNodes.length = 0 from rfl, Nat.zero_add] at hok
    rw [hok] at hrow
    cases hrow
  · exact herr

/-- Counterexample for C8 as stated: a forward reference (id 4 over 2 nodes
with no rows built yet) makes the builder fail with a `TypeError`, not with
any `LinkageError`. -/
theorem claim8_counterexample :
    makeNetworkDendrogramTree 2 [(4, 1, 1)] = .error .typeError
    ∧ makeNetworkDendrogramTree 2 [(4, 1, 1)] ≠ .error .linkageError := by decide

/-- Witness for C8: the amended theorem instantiated on a linkage table
whose only row references the nonexistent id 5 over 3 nodes. -/
theorem claim8_witness : makeNetworkDendrogramTree 3 [(1, 5, 1)] = .error .typeError :=
  claim8 3 [(1, 5, 1)] ⟨0, by decide, by decide⟩

/-! Sub-network extraction. -/

lemma extractSubMatrix_length (m : Matrix) (idxs : List Nat) :
    (extractSubMatrix m idxs).length = idxs.length := by
  simp [extractSubMatrix]

lemma mem_subNodeIdxs (net : Network) (rootIdx : Nat) (a : Nat) :
    a ∈ subNodeIdxs net rootIdx ↔ a = rootIdx ∨ a ∈ net.neighbours.getD rootIdx [] := by
  unfold subNodeIdxs
  rw [(List.mergeSort_perm _ _).mem_iff]
  simp

/-- C3 (amended).  Every node of an extracted sub-network maps, via its
stored parent-network index, to the root or to a neighbour of the root, and
its display name is the parent node's name, unchanged; the extracted edge
set is the edge set obtained by re-running the stored threshold function
and the edge scan on the gathered sub-matrices — with the threshold value
LABELS in the argument slot, due to the swapped arguments of the
`createNetwork` call in the source — which need not be the induced subgraph
of the original network (see the counterexample). -/
theorem claim3 (fuel : Nat) (net sub : Network) (rootIdx : Nat)
    (hok : extractSubNetwork fuel net rootIdx = .ok sub) :
    (∀ i, i < sub.numNodes →
      ∃ pi, sub.fullNetIndex.getD i none = some pi ∧
        (pi = rootIdx ∨ pi ∈ net.neighbours.getD rootIdx []) ∧
        sub.names.getD i "" = net.names.getD pi "") ∧
    sub.edges = buildEdges
      (net.matrices.map (fun m => extractSubMatrix m (subNodeIdxs net rootIdx)))
      (net.thresholdFunc
        ((net.matrices.map (fun m => extractSubMatrix m (subNodeIdxs net rootIdx))).getD
          net.thresholdIdx [])
        net.thresholdValueLabels)
      sub.numNodes := by
  unfold extractSubNetwork createNetwork setNumClusters at hok
  dsimp only at hok
  injection hok with hok
  subst hok
  constructor
  · intro i hi
    refine ⟨(subNodeIdxs net rootIdx).getD i 0, ?_, ?_, ?_⟩
    · exact getD_map_range _ _ _ _ hi
    · have hmem : (subNodeIdxs net rootIdx).getD i 0 ∈ subNodeIdxs net rootIdx := by
        apply getD_mem
        cases hm : net.matrices with
        | nil =>
          exfalso
          revert hi
          rw [hm]
          intro hi
          simp [thresholdNetwork] at hi
        | cons m0 ms =>
          revert hi
          rw [hm]
          intro hi
          simpa [thresholdNetwork, extractSubMatrix_length] using hi
      rw [mem_subNodeIdxs] at hmem
      exact hmem
    · rw [getD_map_range _ _ _ _ hi]
  · rfl

/-- Four-node example whose sub-network around node 0 gains an edge the
full network does not have: entry `(1, 2)` is suppressed in the full
network (both rows contain the value 20) but survives the sub-network's
rebuild. -/
def mC3 : Matrix :=
  [[some 0, some 15, some 15, some 1],
   [some 15, some 0, some 12, some 20],
   [some 15, some 12, some 0, some 20],
   [some 1, some 20, some 20, some 0]]

/-- Network over `mC3` thresholded with the default per-node percentile
function at 75 percent. -/
def netC3 : Network :=
  thresholdNetwork
    { exNet1 with
      numNodes := 4
      names := ["1", "2", "3", "4"]
      fullNetIndex := [none, none, none, none]
      matrices := [mC3]
      thresholdFunc := thresholdMatrix
      thresholdValues := [JsVal.num (3/4)]
      thresholdValueLabels := [JsVal.str "p"] }

/-- Counterexample for C3 as stated: the sub-network of `netC3` around node
0 has node set `{0, 1, 2}` (in parent indices) and edge set
`{(0,1), (0,2), (1,2)}`, while the full network's edges are
`{(0,1), (0,2), (1,3), (2,3)}` — the extracted pair `(1, 2)` is not an edge
of the original network, so the extracted edge set is not the induced
subgraph.  (Concretely, the sub-network is re-thresholded with the label
string in the percentage slot, so no entry at all is suppressed; and even
with the intended arguments the sub-rows' smaller maxima would re-admit
`(1, 2)`.) -/
theorem claim3_counterexample :
    (extractSubNetwork 1 netC3 0).toOption.map
        (fun s => (s.edges.map (fun e => (e.i, e.j)), s.fullNetIndex)) =
      some ([(0, 1), (0, 2), (1, 2)], [some 0, some 1, some 2])
    ∧ netC3.edges.map (fun e => (e.i, e.j)) = [(0, 1), (0, 2), (1, 3), (2, 3)] := by
  with_unfolding_all decide

/-- Network used by the C3 witness. -/
def netW3 : Network := thresholdNetwork exNet1

/-- Sub-network of `netW3` extracted around node 0. -/
def subW3 : Network :=
  match extractSubNetwork 1 netW3 0 with
  | .ok s => s
  | .error _ => netW3

/-- Witness for C3: the amended theorem instantiated on a concrete
extraction, with the success hypothesis discharged definitionally. -/
theorem claim3_witness :
    ∃ pi, subW3.fullNetIndex.getD 0 none = some pi ∧
      (pi = 0 ∨ pi ∈ netW3.neighbours.getD 0 []) ∧
      subW3.names.getD 0 "" = netW3.names.getD pi "" :=
  (claim3 1 netW3 subW3 0 rfl).1 0 (by with_unfolding_all decide)

/-! Validity invariant of dendrogram states, established by the builder and
preserved by the reducer.  It captures what the mutable object graph of the
source guarantees for free: a node's `parent` pointer is matched by
membership in that parent's `children` array, children were always created
before their parent, and `treeNodes` holds each internal node at most
once. -/

/-- Parent pointer of a leaf or internal node (`undefined` is `none`). -/
def parentOf (s : TState) : TreeRef → Option Nat
  | .leaf i => s.leafParent.getD i none
  | .node i => s.nodeParent.getD i none

/-- Creation rank: leaves precede every internal node, internal nodes are
ordered by arena index. -/
def refRank : TreeRef → Nat
  | .leaf _ => 0
  | .node i => i + 1

/-- The parent slot of this reference exists in the state's arrays. -/
def inBoundsRef (s : TState) : TreeRef → Prop
  | .leaf i => i < s.leafParent.length
  | .node i => i < s.nodeParent.length

instance instDecInBoundsRef (s : TState) : (x : TreeRef) → Decidable (inBoundsRef s x)
  | .leaf i => (inferInstance : Decidable (i < s.leafParent.length))
  | .node i => (inferInstance : Decidable (i < s.nodeParent.length))

/-- Liveness: leaves of the network are always live, internal nodes only
while still listed in `treeNodes`. -/
def live (s : TState) : TreeRef → Prop
  | .leaf i => i < s.numNodes
  | .node i => i ∈ s.treeNodes

/-- Well-formedness of a dendrogram state. -/
structure ValidT (s : TState) : Prop where
  inv : ∀ x q, live s x → parentOf s x = some q → x ∈ childrenOf s q ∧ q ∈ s.treeNodes
  ord : ∀ q x, x ∈ childrenOf s q → refRank x < q + 1
  nodup : s.treeNodes.Nodup
  lpLen : s.leafParent.length = s.numNodes
  npLen : s.nodeParent.length = s.children.length

lemma childrenOf_ne_nil_lt (s : TState) (q : Nat) (h : childrenOf s q ≠ []) :
    q < s.children.length := by
  by_contra hq
  exact h (getD_of_ge _ _ _ (not_lt.1 hq))

lemma jsIndexOf_toNat_lt {α} [DecidableEq α] (l : List α) (x : α) (h : x ∈ l) :
    (jsIndexOf l x).toNat < l.length := by
  unfold jsIndexOf
  rw [if_pos h]
  simpa using List.indexOf_lt_length.2 h

lemma pickCluster_mem (s : TState) (cid : Nat) (h : pickCluster s = some cid) :
    some cid ∈ getClusters s := by
  unfold pickCluster at h
  cases ha : allSome (getClusters s) with
  | none => rw [ha] at h; cases h
  | some cids =>
    rw [ha] at h
    dsimp only at h
    split at h
    · cases h
    · rename_i hmin
      injection h with h
      set ds := cids.map (fun c => s.distance.getD c none) with hds
      have hnn : (0 : Int) ≤ jsIndexOf ds (d3min ds) := not_lt.1 hmin
      have hmemd : d3min ds ∈ ds := (jsIndexOf_nonneg_iff _ _).1 hnn
      have hcid : cid ∈ cids := by
        rw [← h]
        refine getD_mem _ _ _ ?_
        have h2 := jsIndexOf_toNat_lt ds (d3min ds) hmemd
        have h3 : ds.length = cids.length := by rw [hds]; simp
        omega
      rw [allSome_eq_some _ _ ha]
      exact List.mem_map_of_mem some hcid

/-- Index of a leaf reference, for rewriting the parent-update folds. -/
def leafIdx : TreeRef → Option Nat
  | .leaf i => some i
  | .node _ => none

/-- Index of an internal-node reference. -/
def nodeIdx : TreeRef → Option Nat
  | .leaf _ => none
  | .node i => some i

lemma foldl_set_getD (keys : List Nat) (lp : List (Option Nat)) (pid ℓ : Nat) :
    (keys.foldl (fun lp i => lp.set i (some pid)) lp).getD ℓ none
      = if ℓ ∈ keys ∧ ℓ < lp.length then some pid else lp.getD ℓ none := by
  induction keys generalizing lp with
  | nil => simp
  | cons k ks ih =>
    simp only [List.foldl_cons]
    rw [ih (lp.set k (some pid))]
    rw [List.length_set]
    by_cases hl : ℓ < lp.length
    · by_cases hks : ℓ ∈ ks
      · rw [if_pos ⟨hks, hl⟩, if_pos ⟨List.mem_cons_of_mem k hks, hl⟩]
      · rw [if_neg (by tauto)]
        by_cases hk : ℓ = k
        · subst hk
          rw [getD_set_self _ _ _ _ hl, if_pos ⟨List.mem_cons_self _ _, hl⟩]
        · rw [getD_set_ne _ _ _ _ _ (fun hc => hk hc.symm)]
          rw [if_neg (by
            rintro ⟨hmem, -⟩
            rcases List.mem_cons.1 hmem with rfl | hmem
            · exact hk rfl
            · exact hks hmem)]
    · rw [if_neg (by tauto), if_neg (by tauto)]
      by_cases hk : ℓ = k
      · subst hk
        rw [List.set_eq_of_length_le (by omega)]
      · rw [getD_set_ne _ _ _ _ _ (fun hc => hk hc.symm)]

lemma foldl_set_length (keys : List Nat) (lp : List (Option Nat)) (pid : Nat) :
    (keys.foldl (fun lp i => lp.set i (some pid)) lp).length = lp.length := by
  induction keys generalizing lp with
  | nil => rfl
  | cons k ks ih => simp [List.foldl_cons, ih]

lemma foldl_leaf_as_keys (cCh : List TreeRef) (lp : List (Option Nat)) (pid : Nat) :
    cCh.foldl (fun lp ch => match ch with | .leaf i => lp.set i (some pid) | .node _ => lp) lp
      = (cCh.filterMap leafIdx).foldl (fun lp i => lp.set i (some pid)) lp := by
  induction cCh generalizing lp with
  | nil => rfl
  | cons ch t ih => cases ch <;> simp [List.foldl_cons, leafIdx, List.filterMap_cons, ih]

lemma foldl_node_as_keys (cCh : List TreeRef) (np : List (Option Nat)) (pid : Nat) :
    cCh.foldl (fun np ch => match ch with | .node i => np.set i (some pid) | .leaf _ => np) np
      = (cCh.filterMap nodeIdx).foldl (fun np i => np.set i (some pid)) np := by
  induction cCh generalizing np with
  | nil => rfl
  | cons ch t ih => cases ch <;> simp [List.foldl_cons, nodeIdx, List.filterMap_cons, ih]

lemma mem_filterMap_leafIdx (cCh : List TreeRef) (ℓ : Nat) :
    ℓ ∈ cCh.filterMap leafIdx ↔ TreeRef.leaf ℓ ∈ cCh := by
  simp only [List.mem_filterMap]
  constructor
  · rintro ⟨x, hx, hlx⟩
    cases x with
    | leaf i =>
      simp only [leafIdx] at hlx
      injection hlx with h
      subst h
      exact hx
    | node i => simp [leafIdx] at hlx
  · intro h
    exact ⟨.leaf ℓ, h, rfl⟩

lemma mem_filterMap_nodeIdx (cCh : List TreeRef) (m : Nat) :
    m ∈ cCh.filterMap nodeIdx ↔ TreeRef.node m ∈ cCh := by
  simp only [List.mem_filterMap]
  constructor
  · rintro ⟨x, hx, hlx⟩
    cases x with
    | leaf i => simp [nodeIdx] at hlx
    | node i =>
      simp only [nodeIdx] at hlx
      injection hlx with h
      subst h
      exact hx
  · intro h
    exact ⟨.node m, h, rfl⟩

/-! Characterisation of `spliceCluster` on states where the chosen cluster
is a child of its parent and is listed in `treeNodes`. -/

lemma spliceCluster_treeNodes (s : TState) (cid pid : Nat) (h : cid ∈ s.treeNodes) :
    (spliceCluster s cid pid).treeNodes = s.treeNodes.erase cid := by
  unfold spliceCluster
  exact jsRemoveAt_indexOf _ _ h

lemma spliceCluster_numNodes' (s : TState) (cid pid : Nat) :
    (spliceCluster s cid pid).numNodes = s.numNodes := rfl

lemma spliceCluster_children (s : TState) (cid pid : Nat) (hne : cid ≠ pid)
    (hmem : TreeRef.node cid ∈ childrenOf s pid) (q : Nat) :
    childrenOf (spliceCluster s cid pid) q =
      if q = pid then ((childrenOf s pid).erase (.node cid)) ++ childrenOf s cid
      else childrenOf s q := by
  have hplt : pid < s.children.length :=
    childrenOf_ne_nil_lt s pid (List.ne_nil_of_mem hmem)
  have hmem' : TreeRef.node cid ∈ s.children.getD pid [] := hmem
  unfold spliceCluster childrenOf
  dsimp only
  rw [jsRemoveAt_indexOf _ _ hmem']
  rw [show (s.children.set pid ((s.children.getD pid []).erase (TreeRef.node cid))).getD cid []
      = s.children.getD cid [] from getD_set_ne _ _ _ _ _ hne.symm]
  by_cases hq : q = pid
  · subst hq
    rw [if_pos rfl]
    rw [getD_set_self _ _ _ _ (by simpa using hplt)]
    rw [getD_set_self _ _ _ _ hplt]
  · rw [if_neg hq]
    rw [getD_set_ne _ _ _ _ _ (fun hc => hq hc.symm)]
    rw [getD_set_ne _ _ _ _ _ (fun hc => hq hc.symm)]

lemma spliceCluster_leafParent (s : TState) (cid pid : Nat) (hne : cid ≠ pid) (ℓ : Nat) :
    (spliceCluster s cid pid).leafParent.getD ℓ none =
      if TreeRef.leaf ℓ ∈ childrenOf s cid ∧ ℓ < s.leafParent.length then some pid
      else s.leafParent.getD ℓ none := by
  unfold spliceCluster
  dsimp only
  rw [show (s.children.set pid (jsRemoveAt (childrenOf s pid)
        (jsIndexOf (childrenOf s pid) (TreeRef.node cid)))).getD cid []
      = s.children.getD cid [] from getD_set_ne _ _ _ _ _ hne.symm]
  rw [foldl_leaf_as_keys, foldl_set_getD]
  exact if_congr (and_congr_left' (mem_filterMap_leafIdx _ _)) rfl rfl

lemma spliceCluster_nodeParent (s : TState) (cid pid : Nat) (hne : cid ≠ pid) (m : Nat) :
    (spliceCluster s cid pid).nodeParent.getD m none =
      if TreeRef.node m ∈ childrenOf s cid ∧ m < s.nodeParent.length then some pid
      else s.nodeParent.getD m none := by
  unfold spliceCluster
  dsimp only
  rw [show (s.children.set pid (jsRemoveAt (childrenOf s pid)
        (jsIndexOf (childrenOf s pid) (TreeRef.node cid)))).getD cid []
      = s.children.getD cid [] from getD_set_ne _ _ _ _ _ hne.symm]
  rw [foldl_node_as_keys, foldl_set_getD]
  exact if_congr (and_congr_left' (mem_filterMap_nodeIdx _ _)) rfl rfl

lemma parentOf_splice (s : TState) (cid pid : Nat) (hne : cid ≠ pid) (x : TreeRef) :
    parentOf (spliceCluster s cid pid) x =
      if x ∈ childrenOf s cid ∧ inBoundsRef s x then some pid else parentOf s x := by
  cases x with
  | leaf ℓ => exact spliceCluster_leafParent s cid pid hne ℓ
  | node m => exact spliceCluster_nodeParent s cid pid hne m

lemma spliceCluster_lpLen (s : TState) (cid pid : Nat) :
    (spliceCluster s cid pid).leafParent.length = s.leafParent.length := by
  unfold spliceCluster
  dsimp only
  rw [foldl_leaf_as_keys, foldl_set_length]

lemma spliceCluster_npLen (s : TState) (cid pid : Nat) :
    (spliceCluster s cid pid).nodeParent.length = s.nodeParent.length := by
  unfold spliceCluster
  dsimp only
  rw [foldl_node_as_keys, foldl_set_length]

lemma spliceCluster_chLen (s : TState) (cid pid : Nat) :
    (spliceCluster s cid pid).children.length = s.children.length := by
  unfold spliceCluster
  dsimp only
  rw [List.length_set, List.length_set]

/-- Soundness of one reducer iteration: on a valid state a successful step
yields a valid state, never increases the active-cluster count, and keeps
the node count. -/
lemma flattenStep_sound (s s' : TState) (hv : ValidT s) (hs : flattenStep s = .ok s') :
    ValidT s' ∧ (getClusters s').length ≤ (getClusters s).length ∧ s'.numNodes = s.numNodes := by
  unfold flattenStep at hs
  cases hp : pickCluster s with
  | none => rw [hp] at hs; cases hs
  | some cid =>
    rw [hp] at hs
    dsimp only at hs
    cases hq : s.nodeParent.getD cid none with
    | none => rw [hq] at hs; cases hs
    | some pid =>
      rw [hq] at hs
      dsimp only at hs
      injection hs with hs
      subst hs
      have hcl : some cid ∈ getClusters s := pickCluster_mem s cid hp
      have hclp : some cid ∈ leafParents s := (mem_uniqFirst _ _).1 hcl
      obtain ⟨ℓ, hℓn, hℓp⟩ : ∃ ℓ, ℓ < s.numNodes ∧ s.leafParent.getD ℓ none = some cid := by
        simpa [leafParents, List.mem_map, List.mem_range] using hclp
      obtain ⟨hlm, hcidtn⟩ := hv.inv (.leaf ℓ) cid hℓn hℓp
      obtain ⟨hcm, hpidtn⟩ := hv.inv (.node cid) pid hcidtn hq
      have hcidpid : cid < pid := by
        have := hv.ord pid (.node cid) hcm
        simpa [refRank] using this
      have hne : cid ≠ pid := Nat.ne_of_lt hcidpid
      have hch := spliceCluster_children s cid pid hne hcm
      have hpo := parentOf_splice s cid pid hne
      have htn := spliceCluster_treeNodes s cid pid hcidtn
      refine ⟨⟨?_, ?_, ?_, ?_, ?_⟩, ?_, rfl⟩
      · -- inv
        intro x r hlx hpx
        rw [hpo x] at hpx
        by_cases hin : x ∈ childrenOf s cid ∧ inBoundsRef s x
        · rw [if_pos hin] at hpx
          injection hpx with hpx
          subst hpx
          constructor
          · rw [hch pid, if_pos rfl]
            exact List.mem_append_right _ hin.1
          · rw [htn]
            exact (List.mem_erase_of_ne (Ne.symm hne)).2 hpidtn
        · rw [if_neg hin] at hpx
          have hlive : live s x := by
            cases x with
            | leaf i => exact hlx
            | node m =>
              have hm : m ∈ (spliceCluster s cid pid).treeNodes := hlx
              rw [htn] at hm
              exact List.mem_of_mem_erase hm
          obtain ⟨hxm, hrtn⟩ := hv.inv x r hlive hpx
          have hrne : r ≠ cid := by
            intro hrc
            subst hrc
            apply hin
            refine ⟨hxm, ?_⟩
            cases x with
            | leaf i =>
              have hi : i < s.numNodes := hlive
              show i < s.leafParent.length
              rw [hv.lpLen]
              exact hi
            | node m =>
              have hmo := hv.ord r (.node m) hxm
              have hmr : m < r := by simpa [refRank] using hmo
              have hrlt : r < s.children.length :=
                childrenOf_ne_nil_lt s r (List.ne_nil_of_mem hxm)
              show m < s.nodeParent.length
              rw [hv.npLen]
              omega
          refine ⟨?_, ?_⟩
          · rw [hch r]
            by_cases hrp : r = pid
            · subst hrp
              rw [if_pos rfl]
              apply List.mem_append_left
              have hxne : x ≠ TreeRef.node cid := by
                intro hxe
                subst hxe
                have hcc : cid ∈ s.treeNodes.erase cid := by
                  rw [← htn]
                  exact hlx
                exact absurd ((hv.nodup.mem_erase_iff).1 hcc).1 (by simp)
              exact (List.mem_erase_of_ne hxne).2 hxm
            · rw [if_neg hrp]
              exact hxm
          · rw [htn]
            exact (List.mem_erase_of_ne hrne).2 hrtn
      · -- ord
        intro q x hx
        rw [hch q] at hx
        by_cases hqp : q = pid
        · subst hqp
          rw [if_pos rfl] at hx
          rcases List.mem_append.1 hx with hx | hx
          · exact hv.ord q x (List.erase_subset _ _ hx)
          · have h2 := hv.ord cid x hx
            omega
        · rw [if_neg hqp] at hx
          exact hv.ord q x hx
      · -- nodup
        rw [htn]
        exact hv.nodup.erase _
      · -- lpLen
        rw [spliceCluster_lpLen]
        exact hv.lpLen
      · -- npLen
        rw [spliceCluster_npLen, spliceCluster_chLen]
        exact hv.npLen
      · -- count
        unfold getClusters
        rw [uniqFirst_length_eq_card, uniqFirst_length_eq_card]
        have hsub : (leafParents (spliceCluster s cid pid)).toFinset ⊆
            insert (some pid) (((leafParents s).toFinset).erase (some cid)) := by
          intro v hvm
          rw [List.mem_toFinset] at hvm
          obtain ⟨ℓ', hℓ'n, hval⟩ :
              ∃ ℓ', ℓ' < s.numNodes ∧ (spliceCluster s cid pid).leafParent.getD ℓ' none = v := by
            simpa [leafParents, spliceCluster_numNodes', List.mem_map, List.mem_range] using hvm
          rw [spliceCluster_leafParent s cid pid hne ℓ'] at hval
          by_cases hcc : TreeRef.leaf ℓ' ∈ childrenOf s cid ∧ ℓ' < s.leafParent.length
          · rw [if_pos hcc] at hval
            rw [← hval]
            exact Finset.mem_insert_self _ _
          · rw [if_neg hcc] at hval
            have hvne : v ≠ some cid := by
              intro hvc
              have h2 := hv.inv (.leaf ℓ') cid hℓ'n (by
                show s.leafParent.getD ℓ' none = some cid
                rw [hval]
                exact hvc)
              exact hcc ⟨h2.1, by rw [hv.lpLen]; exact hℓ'n⟩
            apply Finset.mem_insert_of_mem
            rw [Finset.mem_erase]
            refine ⟨hvne, ?_⟩
            rw [List.mem_toFinset, ← hval]
            simp only [leafParents, List.mem_map, List.mem_range]
            exact ⟨ℓ', hℓ'n, rfl⟩
        have hBmem : some cid ∈ (leafParents s).toFinset := List.mem_toFinset.2 hclp
        have h1 := Finset.card_le_card hsub
        have h2 := Finset.card_insert_le (some pid) (((leafParents s).toFinset).erase (some cid))
        have h3 := Finset.card_erase_of_mem hBmem
        have h4 : 1 ≤ (leafParents s).toFinset.card := Finset.card_pos.2 ⟨_, hBmem⟩
        omega

/-- Soundness of the fueled reducer loop: a normal return from a valid state
is a valid state with no more active clusters. -/
lemma flattenLoop_sound (fuel : Nat) (s : TState) (K : Int) (hv : ValidT s) (s' : TState)
    (h : flattenDendrogramTree fuel s K = .ok s') :
    ValidT s' ∧ (getClusters s').length ≤ (getClusters s).length := by
  induction fuel generalizing s with
  | zero =>
    unfold flattenDendrogramTree at h
    split at h
    · cases h
    · injection h with h
      subst h
      exact ⟨hv, le_refl _⟩
  | succ fuel ih =>
    unfold flattenDendrogramTree at h
    split at h
    · cases hs : flattenStep s with
      | error e => rw [hs] at h; cases h
      | ok s1 =>
        rw [hs] at h
        obtain ⟨hv1, hc1, -⟩ := flattenStep_sound s s1 hv hs
        obtain ⟨hv2, hc2⟩ := ih s1 hv1 h
        exact ⟨hv2, le_trans hc2 hc1⟩
    · injection h with h
      subst h
      exact ⟨hv, le_refl _⟩

/-! The builder establishes validity. -/

lemma setParent_children (s : TState) (x : TreeRef) (p : Nat) :
    (setParent s x p).children = s.children := by
  cases x <;> rfl

lemma setParent_numNodes (s : TState) (x : TreeRef) (p : Nat) :
    (setParent s x p).numNodes = s.numNodes := by
  cases x <;> rfl

lemma setParent_lpLen (s : TState) (x : TreeRef) (p : Nat) :
    (setParent s x p).leafParent.length = s.leafParent.length := by
  cases x <;> simp [setParent]

lemma setParent_npLen (s : TState) (x : TreeRef) (p : Nat) :
    (setParent s x p).nodeParent.length = s.nodeParent.length := by
  cases x <;> simp [setParent]

lemma inBoundsRef_setParent (s : TState) (x : TreeRef) (p : Nat) (y : TreeRef) :
    inBoundsRef (setParent s x p) y ↔ inBoundsRef s y := by
  cases x <;> cases y <;> simp [setParent, inBoundsRef]

lemma parentOf_setParent (s : TState) (x : TreeRef) (p : Nat) (y : TreeRef) :
    parentOf (setParent s x p) y =
      if y = x ∧ inBoundsRef s x then some p else parentOf s y := by
  cases x with
  | leaf i =>
    cases y with
    | leaf j =>
      show (s.leafParent.set i (some p)).getD j none = _
      by_cases hij : j = i
      · subst hij
        by_cases hb : j < s.leafParent.length
        · rw [getD_set_self _ _ _ _ hb, if_pos ⟨rfl, hb⟩]
        · rw [List.set_eq_of_length_le (by omega), if_neg (by
            rintro ⟨-, hc⟩
            exact hb hc)]
          rfl
      · rw [getD_set_ne _ _ _ _ _ (fun hc => hij hc.symm), if_neg (by
          rintro ⟨hc, -⟩
          exact hij (by injection hc))]
        rfl
    | node j =>
      show s.nodeParent.getD j none = _
      rw [if_neg (by rintro ⟨hc, -⟩; cases hc)]
      rfl
  | node i =>
    cases y with
    | leaf j =>
      show s.leafParent.getD j none = _
      rw [if_neg (by rintro ⟨hc, -⟩; cases hc)]
      rfl
    | node j =>
      show (s.nodeParent.set i (some p)).getD j none = _
      by_cases hij : j = i
      · subst hij
        by_cases hb : j < s.nodeParent.length
        · rw [getD_set_self _ _ _ _ hb, if_pos ⟨rfl, hb⟩]
        · rw [List.set_eq_of_length_le (by omega), if_neg (by
            rintro ⟨-, hc⟩
            exact hb hc)]
          rfl
      · rw [getD_set_ne _ _ _ _ _ (fun hc => hij hc.symm), if_neg (by
          rintro ⟨hc, -⟩
          exact hij (by injection hc))]
        rfl

lemma getD_append_default {α} (l : List α) (d : α) (m : Nat) :
    (l ++ [d]).getD m d = l.getD m d := by
  by_cases hm : m < l.length
  · exact getD_append_left _ _ _ _ hm
  · by_cases hm2 : m = l.length
    · subst hm2
      rw [getD_append_right, getD_of_ge _ _ _ (le_refl _)]
    · rw [getD_of_ge _ _ _ (by simp; omega), getD_of_ge _ _ _ (by omega)]

/-- Invariant carried through the builder: validity plus the fact that
`treeNodes` is exactly the creation-ordered arena. -/
def BuildOK (s : TState) : Prop :=
  ValidT s ∧ s.treeNodes = List.range s.children.length

lemma getD_replicate_none (n i : Nat) :
    (List.replicate n (none : Option Nat)).getD i none = none := by
  by_cases hi : i < n
  · rw [List.getD_eq_getElem _ _ (by simpa using hi)]
    simp
  · exact getD_of_ge _ _ _ (by simpa using not_lt.1 hi)

lemma initTState_buildOK (n : Nat) : BuildOK (initTState n) := by
  refine ⟨⟨?_, ?_, ?_, ?_, ?_⟩, rfl⟩
  · intro x q hl hp
    exfalso
    cases x with
    | leaf i =>
      have h0 : parentOf (initTState n) (.leaf i) = none := getD_replicate_none n i
      rw [h0] at hp
      cases hp
    | node m =>
      have h0 : parentOf (initTState n) (.node m) = none := rfl
      rw [h0] at hp
      cases hp
  · intro q x hx
    have h0 : childrenOf (initTState n) q = [] := rfl
    rw [h0] at hx
    cases hx
  · exact List.nodup_nil
  · simp [initTState]
  · rfl

lemma resolveRef_spec (n cnt id : Nat) (x : TreeRef) (h : resolveRef n cnt id = some x) :
    (∃ i, x = .leaf i ∧ i < n) ∨ (∃ k, x = .node k ∧ k < cnt) := by
  unfold resolveRef at h
  split at h
  · rename_i h1
    split at h
    · rename_i h2
      injection h with h
      exact Or.inr ⟨_, h.symm, h2⟩
    · cases h
  · rename_i h1
    split at h
    · rename_i h2
      injection h with h
      refine Or.inl ⟨_, h.symm, ?_⟩
      omega
    · cases h

lemma buildTree_valid (n : Nat) (rows : List LinkRow) (s t : TState)
    (hs : BuildOK s) (hnn : s.numNodes = n) (h : buildTree n s rows = .ok t) :
    BuildOK t ∧ t.numNodes = n := by
  induction rows generalizing s with
  | nil =>
    unfold buildTree at h
    injection h with h
    subst h
    exact ⟨hs, hnn⟩
  | cons row rest ih =>
    obtain ⟨l, r, d⟩ := row
    unfold buildTree at h
    cases hl : resolveRef n s.treeNodes.length l with
    | none => rw [hl] at h; dsimp only at h; cases h
    | some lref =>
      rw [hl] at h
      cases hr : resolveRef n s.treeNodes.length r with
      | none => rw [hr] at h; dsimp only at h; cases h
      | some rref =>
        rw [hr] at h
        dsimp only at h
        obtain ⟨hv, htn⟩ := hs
        have hcnt : s.treeNodes.length = s.children.length := by rw [htn]; simp
        have hlref := resolveRef_spec _ _ _ _ hl
        have hrref := resolveRef_spec _ _ _ _ hr
        have hblref : inBoundsRef s lref := by
          rcases hlref with ⟨i, rfl, hi⟩ | ⟨k, rfl, hk⟩
          · show i < s.leafParent.length
            rw [hv.lpLen, hnn]
            exact hi
          · show k < s.nodeParent.length
            rw [hv.npLen]
            omega
        have hbrref : inBoundsRef s rref := by
          rcases hrref with ⟨i, rfl, hi⟩ | ⟨k, rfl, hk⟩
          · show i < s.leafParent.length
            rw [hv.lpLen, hnn]
            exact hi
          · show k < s.nodeParent.length
            rw [hv.npLen]
            omega
        set s1 := setParent (setParent s lref s.treeNodes.length) rref s.treeNodes.length with hs1
        set s2 : TState :=
          { s1 with
            children := s1.children ++ [[lref, rref]]
            distance := s1.distance ++ [some d]
            treeIndex := s1.treeIndex ++ [s1.treeNodes.length + n]
            nodeParent := s1.nodeParent ++ [none]
            treeNodes := s1.treeNodes ++ [s.treeNodes.length] } with hs2
        have hch1 : s1.children = s.children := by
          rw [hs1, setParent_children, setParent_children]
        have htn1 : s1.treeNodes = s.treeNodes := by
          rw [hs1, setParent_treeNodes, setParent_treeNodes]
        have hpar2 : ∀ y, parentOf s2 y = parentOf s1 y := by
          intro y
          cases y with
          | leaf j => rfl
          | node m =>
            show (s1.nodeParent ++ [none]).getD m none = s1.nodeParent.getD m none
            exact getD_append_default _ _ _
        have hpar1 : ∀ y, parentOf s1 y =
            if y = rref ∨ y = lref then some s.treeNodes.length else parentOf s y := by
          intro y
          rw [hs1, parentOf_setParent, parentOf_setParent]
          by_cases hyr : y = rref
          · rw [if_pos ⟨hyr, (inBoundsRef_setParent s lref _ rref).2 hbrref⟩,
              if_pos (Or.inl hyr)]
          · rw [if_neg (by rintro ⟨hc, -⟩; exact hyr hc)]
            by_cases hyl : y = lref
            · rw [if_pos ⟨hyl, hblref⟩, if_pos (Or.inr hyl)]
            · rw [if_neg (by rintro ⟨hc, -⟩; exact hyl hc),
                if_neg (by rintro (hc | hc) <;> [exact hyr hc; exact hyl hc])]
        have hch2 : ∀ q, childrenOf s2 q =
            if q = s.children.length then [lref, rref] else childrenOf s q := by
          intro q
          show (s1.children ++ [[lref, rref]]).getD q [] = _
          rw [hch1]
          by_cases hq : q = s.children.length
          · subst hq
            rw [getD_append_right, if_pos rfl]
          · rw [if_neg hq]
            by_cases hq2 : q < s.children.length
            · exact getD_append_left _ _ _ _ hq2
            · have h1 : (s.children ++ [[lref, rref]]).getD q [] = [] :=
                getD_of_ge _ _ _ (by simp; omega)
              have h2 : childrenOf s q = [] := getD_of_ge _ _ _ (by omega)
              rw [h1, h2]
        have htn2 : s2.treeNodes = s.treeNodes ++ [s.treeNodes.length] := by
          show s1.treeNodes ++ [s.treeNodes.length] = _
          rw [htn1]
        have hnum2 : s2.numNodes = s.numNodes := by
          show s1.numNodes = s.numNodes
          rw [hs1, setParent_numNodes, setParent_numNodes]
        have htnr2 : s2.treeNodes = List.range (s.children.length + 1) := by
          rw [htn2, htn]
          simp [List.range_succ]
        refine ih s2 ⟨⟨?_, ?_, ?_, ?_, ?_⟩, ?_⟩ ?_ h
        · -- inv
          intro x q hlx hpx
          rw [hpar2, hpar1] at hpx
          by_cases hx2 : x = rref ∨ x = lref
          · rw [if_pos hx2] at hpx
            injection hpx with hpx
            subst hpx
            constructor
            · rw [hch2, hcnt, if_pos rfl]
              rcases hx2 with rfl | rfl
              · simp
              · simp
            · rw [htn2, hcnt]
              exact List.mem_append_right _ (by simp)
          · rw [if_neg hx2] at hpx
            have hlive : live s x := by
              cases x with
              | leaf i =>
                show i < s.numNodes
                rw [← hnum2]
                exact hlx
              | node m =>
                have hm : m ∈ s2.treeNodes := hlx
                rw [htn2] at hm
                rcases List.mem_append.1 hm with hm | hm
                · exact hm
                · exfalso
                  have hmc : m = s.treeNodes.length := by simpa using hm
                  rw [show parentOf s (TreeRef.node m) = s.nodeParent.getD m none from rfl,
                    getD_of_ge _ _ _ (by rw [hv.npLen]; omega)] at hpx
                  cases hpx
            obtain ⟨hxm, hqtn⟩ := hv.inv x q hlive hpx
            have hqlt : q < s.children.length := by
              rw [htn] at hqtn
              simpa using hqtn
            refine ⟨?_, ?_⟩
            · rw [hch2, if_neg (by omega)]
              exact hxm
            · rw [htn2]
              exact List.mem_append_left _ hqtn
        · -- ord
          intro q x hx
          rw [hch2] at hx
          by_cases hq : q = s.children.length
          · rw [if_pos hq] at hx
            have hxe : x = lref ∨ x = rref := by
              rcases List.mem_cons.1 hx with rfl | hx
              · exact Or.inl rfl
              · exact Or.inr (by simpa using hx)
            rcases hxe with rfl | rfl
            · rcases hlref with ⟨i, rfl, hi⟩ | ⟨k, rfl, hk⟩
              · simp [refRank]
              · show k + 1 < q + 1
                omega
            · rcases hrref with ⟨i, rfl, hi⟩ | ⟨k, rfl, hk⟩
              · simp [refRank]
              · show k + 1 < q + 1
                omega
          · rw [if_neg hq] at hx
            exact hv.ord q x hx
        · -- nodup
          rw [htnr2]
          exact List.nodup_range _
        · -- lpLen
          show s1.leafParent.length = s1.numNodes
          rw [hs1, setParent_lpLen, setParent_lpLen, setParent_numNodes, setParent_numNodes]
          exact hv.lpLen
        · -- npLen
          show (s1.nodeParent ++ [none]).length = (s1.children ++ [[lref, rref]]).length
          rw [List.length_append, List.length_append, hch1]
          rw [hs1, setParent_npLen, setParent_npLen]
          rw [hv.npLen]
          rfl
        · -- treeNodes = range
          rw [htnr2]
          show _ = List.range (s1.children ++ [[lref, rref]]).length
          rw [List.length_append, hch1]
          simp
        · -- numNodes
          show s1.numNodes = n
          rw [hs1, setParent_numNodes, setParent_numNodes]
          exact hnn

/-- Validity of every successfully built dendrogram. -/
lemma makeNetworkDendrogramTree_valid (n : Nat) (rows : List LinkRow) (t : TState)
    (h : makeNetworkDendrogramTree n rows = .ok t) : ValidT t :=
  (buildTree_valid n rows (initTState n) t (initTState_buildOK n) rfl h).1.1

/-- C4.  For a dendrogram built from a linkage table, flattening to `K2`
clusters after flattening to `K1 > K2` never increases the number of
distinct active clusters; and whenever `K` is at least the current active
cluster count the reduction returns the state unchanged — tree and
internal-node list untouched. -/
theorem claim4 :
    (∀ (fuel1 fuel2 n : Nat) (rows : List LinkRow) (t s1 s2 : TState) (K1 K2 : Int),
      makeNetworkDendrogramTree n rows = .ok t →
      flattenDendrogramTree fuel1 t K1 = .ok s1 →
      K2 < K1 →
      flattenDendrogramTree fuel2 s1 K2 = .ok s2 →
      (getClusters s2).length ≤ (getClusters s1).length)
    ∧ (∀ (fuel : Nat) (s : TState) (K : Int),
      ((getClusters s).length : Int) ≤ K →
      flattenDendrogramTree fuel s K = .ok s) := by
  constructor
  · intro fuel1 fuel2 n rows t s1 s2 K1 K2 hb h1 hK h2
    have hvt := makeNetworkDendrogramTree_valid n rows t hb
    obtain ⟨hv1, -⟩ := flattenLoop_sound fuel1 t K1 hvt s1 h1
    exact (flattenLoop_sound fuel2 s1 K2 hv1 s2 h2).2
  · intro fuel s K hle
    cases fuel with
    | zero =>
      unfold flattenDendrogramTree
      rw [if_neg (by omega)]
    | succ fuel =>
      unfold flattenDendrogramTree
      rw [if_neg (by omega)]

/-- Two-leaf dendrogram tree used by the C4 witness. -/
def exT4 : TState :=
  match makeNetworkDendrogramTree 2 [(1, 2, 1)] with
  | .ok t => t
  | .error _ => initTState 2

/-- Witness for C4: both parts instantiated on the concrete two-leaf tree
(one active cluster), with `K1 = 2`, `K2 = 1`. -/
theorem claim4_witness :
    (getClusters exT4).length ≤ (getClusters exT4).length
    ∧ flattenDendrogramTree 1 exT4 1 = .ok exT4 :=
  ⟨claim4.1 1 1 2 [(1, 2, 1)] exT4 exT4 exT4 2 1 (by decide) (by decide) (by decide) (by decide),
   claim4.2 1 exT4 1 (by decide)⟩

end NetJS
